import Mathlib

/-!
# Verification development for the survex keyword analyzer

Shallow embedding of `svx_keywords.py` / `survex_analyzer.py`: the
encoding prober (`svx_encoding`), the line source (`svx_open` /
`svx_readline`), the directive extractor (`extract_keyword_arguments`),
and the tree walker (`Analyzer.keyword_table`), together with the exit
logic of the `__main__` wrapper.

Python strings are modelled as `String` (operations restated over
character lists), file-system paths as lists of path components, and the
file tree as an association list from paths to file contents.  File
handles are modelled by the list of not-yet-read lines of the open file.
Python exceptions are modelled by the `PyErr` error type through
`Except`, and the unbounded `while` loops of `keyword_table` by a
fuel-indexed step function (`none` = fuel exhausted).

Ghost observation fields on the walker state record what the code prints
or implicitly does: `visited` logs each `svx_open` call (the `Entering
...` trace line), `processed` logs every stripped line handled by the
inner loop, and `finished` logs each `fp.close()` call.  No ghost field
is ever read by a transition.
-/

set_option maxHeartbeats 1000000

/-! ## Python string primitives -/

/-- `str.strip()` on ASCII whitespace: drop whitespace from both ends. -/
def pyStrip (s : String) : String :=
  String.mk (((s.toList.dropWhile Char.isWhitespace).reverse.dropWhile
      Char.isWhitespace).reverse)

/-- Auxiliary accumulator-based worker for `str.split()` (split on
whitespace runs, yielding no empty pieces). `cur` is the current word,
reversed. -/
def splitWsAux : List Char → List Char → List String
  | [], [] => []
  | [], cur => [String.mk cur.reverse]
  | c :: cs, cur =>
    if c.isWhitespace then
      match cur with
      | [] => splitWsAux cs []
      | _ => String.mk cur.reverse :: splitWsAux cs []
    else splitWsAux cs (c :: cur)

/-- `str.split()` with no argument: split on whitespace, no empty parts. -/
def pySplit (s : String) : List String :=
  splitWsAux s.toList []

/-- `line.split(c)[0]`: the prefix of the line before the first
occurrence of `c` (the whole line when `c` is absent). -/
def takeBeforeChar (s : String) (c : Char) : String :=
  String.mk (s.toList.takeWhile (fun d => d ≠ c))

/-- `str.strip('"')`: drop double quotes from both ends. -/
def stripQuotes (s : String) : String :=
  String.mk (((s.toList.dropWhile (fun c => c = '"')).reverse.dropWhile
      (fun c => c = '"')).reverse)

/-- `str.replace('\\', '/')`: single-character replacement. -/
def replaceBackslash (s : String) : String :=
  String.mk (s.toList.map (fun c => if c = '\\' then '/' else c))

/-- Worker for splitting on a separator character, keeping empty
pieces (Python `str.split(sep)`); `cur` is the current piece, reversed. -/
def splitCharAux (sep : Char) : List Char → List Char → List String
  | [], cur => [String.mk cur.reverse]
  | c :: cs, cur =>
    if c = sep then String.mk cur.reverse :: splitCharAux sep cs []
    else splitCharAux sep cs (c :: cur)

/-- Split a string on a separator character. -/
def splitChar (s : String) (sep : Char) : List String :=
  splitCharAux sep s.toList []

/-- Whether the string starts with the given character. -/
def startsWithChar (s : String) (c : Char) : Bool :=
  match s.toList with
  | [] => false
  | d :: _ => d = c

/-- ASCII upper-casing of one character, as Python `str.upper()` acts on
the ASCII range (the only range exercised by the analyzer's keywords). -/
def upChar (c : Char) : Char :=
  if 97 ≤ c.toNat ∧ c.toNat ≤ 122 then Char.ofNat (c.toNat - 32) else c

/-- ASCII lower-casing of one character (Python `str.lower()`). -/
def lowChar (c : Char) : Char :=
  if 65 ≤ c.toNat ∧ c.toNat ≤ 90 then Char.ofNat (c.toNat + 32) else c

/-- Python `str.upper()` (ASCII range). -/
def pyUpper (s : String) : String :=
  String.mk (s.toList.map upChar)

/-- Python `str.lower()` (ASCII range). -/
def pyLower (s : String) : String :=
  String.mk (s.toList.map lowChar)

/-- Worker for `str.expandtabs()`: `col` is the current column; a tab
advances to the next multiple of 8, a line break resets the column. -/
def expandtabsAux : List Char → Nat → List Char
  | [], _ => []
  | c :: cs, col =>
    if c = '\t' then
      List.replicate (8 - col % 8) ' ' ++ expandtabsAux cs (col + (8 - col % 8))
    else if c = '\n' ∨ c = '\r' then c :: expandtabsAux cs 0
    else c :: expandtabsAux cs (col + 1)

/-- `str.expandtabs()` with the default tab size of 8. -/
def expandtabs (s : String) : String :=
  String.mk (expandtabsAux s.toList 0)

/-- `' '.join(arguments)`. -/
def spaceJoin (xs : List String) : String :=
  String.intercalate " " xs

/-- `'.'.join(svx_path)`. -/
def dotJoin (xs : List String) : String :=
  String.intercalate "." xs

/-! ## Path model (`pathlib.Path`)

A path is its list of components; `with_suffix` manipulates the final
component following the `pathlib` suffix rules. -/

/-- A file-system path, as its list of components. -/
abbrev SvxPath := List String

/-- Length of the `pathlib` stem of a file name: the position of the
suffix dot (the last dot, provided it is neither the first nor past the
last character), or the full length when the name has no suffix. -/
def pyStemLen (cs : List Char) : Nat :=
  match ((List.range cs.length).filter (fun i => cs.getD i ' ' = '.')).getLast? with
  | some i => if 0 < i ∧ i + 1 < cs.length then i else cs.length
  | none => cs.length

/-- `Path.with_suffix('.svx')`: replace the suffix of the final
component by `.svx` (appending it when the name has no suffix). -/
def withSuffixSvx (p : SvxPath) : SvxPath :=
  match p.getLast? with
  | none => p
  | some name =>
    p.dropLast ++ [String.mk (name.toList.take (pyStemLen name.toList)) ++ ".svx"]

/-- `Path(parent, filename)`: split `filename` on `/` (dropping empty
segments and `.` as `pathlib` does) and append to `parent`, unless the
filename is absolute. -/
def pathJoin (parent : SvxPath) (filename : String) : SvxPath :=
  let comps := (splitChar filename '/').filter (fun c => c ≠ "" ∧ c ≠ ".")
  if startsWithChar filename '/' then comps else parent ++ comps

/-- The include-argument clean-up of `keyword_table`:
`' '.join(arguments).strip('"').replace('\\', '/')`. -/
def includeFilename (arguments : List String) : String :=
  replaceBackslash (stripQuotes (spaceJoin arguments))

/-- Resolution of an INCLUDE argument in `keyword_table`:
`Path(p.parent, filename).with_suffix('.svx')`, with `p` the file
currently being processed. -/
def resolveInclude (p : SvxPath) (arguments : List String) : SvxPath :=
  withSuffixSvx (pathJoin p.dropLast (includeFilename arguments))

/-! ## File system and encoding prober -/

/-- Contents of one file on disk: its lines (without trailing newlines)
and whether each candidate encoding can decode its raw bytes. -/
structure SvxContent where
  lines : List String
  decUtf8 : Bool
  decLatin : Bool
  deriving DecidableEq, Repr, Inhabited

/-- The file tree, as an association list from paths to contents. -/
abbrev SvxFS := List (SvxPath × SvxContent)

/-- Path lookup in the modelled file system. -/
def lookupFs : SvxFS → SvxPath → Option SvxContent
  | [], _ => none
  | (q, c) :: rest, p => if q = p then some c else lookupFs rest p

/-- The Python errors `keyword_table` can raise, uncaught. -/
inductive PyErr where
  | fileNotFound
  | encodingError
  | indexError
  | nameError
  deriving DecidableEq, Repr

/-- Whether a candidate encoding name decodes the given file (the
`fp.readlines()` trial decode of `svx_encoding`). -/
def decodes (c : SvxContent) (encoding : String) : Bool :=
  if encoding = "utf-8" then c.decUtf8
  else if encoding = "iso-8859-1" then c.decLatin
  else false

/-- `svx_encoding`: try `utf-8` then `iso-8859-1`; the first candidate
whose full-file trial decode succeeds is returned, and an error is
raised when no candidate succeeds. -/
def svx_encoding (c : SvxContent) : Except PyErr String :=
  match ["utf-8", "iso-8859-1"].find? (fun e => decodes c e) with
  | some e => .ok e
  | none => .error .encodingError

/-- `svx_open`: open a file (failing when it does not exist), probe its
encoding, and reset the line counter (the caller starts at 0). Returns
the unread lines and the encoding. -/
def svx_open (fs : SvxFS) (p : SvxPath) : Except PyErr (List String × String) :=
  match lookupFs fs p with
  | none => .error .fileNotFound
  | some c =>
    match svx_encoding c with
    | .error e => .error e
    | .ok enc => .ok (c.lines, enc)

/-! ## Directive extractor -/

/-- `extract_keyword_arguments`: on a cleaned line starting with the
keyword character, split the remainder on whitespace and compare the
first token, upper-cased, against the recognized keyword list; Python
indexes `clean_list[0]` inside the `for` loop without an emptiness
check, so a marker-only line raises `IndexError` whenever the keyword
set is non-empty. -/
def extract_keyword_arguments (clean : String) (keywords : List String)
    (keyword_char : Char) : Except PyErr (Option String × List String) :=
  if clean ≠ "" ∧ clean.toList.headD ' ' = keyword_char then
    match pySplit (String.mk clean.toList.tail) with
    | [] => if keywords = [] then .ok (none, []) else .error .indexError
    | w :: ws => if pyUpper w ∈ keywords then .ok (some w, ws) else .ok (none, [])
  else .ok (none, [])

/-! ## Tree walker state -/

/-- One row of the output table (the `record = (...)` tuples). -/
structure Record where
  file : SvxPath
  encoding : String
  line : Nat
  keyword : String
  argument : String
  path : String
  full : String
  deriving DecidableEq, Repr, Inhabited

/-- A suspended include frame: `(p, fp, line_number, encoding)` pushed
onto the stack at an INCLUDE; the open handle `fp` is modelled by the
unread lines. -/
structure Frame where
  p : SvxPath
  curLines : List String
  lineNumber : Nat
  encoding : String
  deriving DecidableEq, Repr, Inhabited

/-- The full state of the tree walker between line reads.  The last
three fields are ghost observations (see the module comment). -/
structure WalkState where
  p : SvxPath
  curLines : List String
  lineNumber : Nat
  encoding : String
  stack : List Frame
  svxPath : List String
  beginLine : Option (Nat × String)
  records : List Record
  visited : List SvxPath
  processed : List String
  finished : List SvxPath
  deriving DecidableEq, Repr, Inhabited

/-- The analyzer configuration consumed by `keyword_table`: the
user-set reporting keywords (`self.keywords`), the optional grep
pattern (`self.pattern`, modelled as `re.search` returning the matched
group), the `warn` flag, the `preserve_case` flag, and the marker
characters. -/
structure Cfg where
  keywords : List String
  pattern : Option (String → Option String)
  warn : Bool
  preserveCase : Bool
  keywordChar : Char := '*'
  commentChar : Char := ';'

/-- The recognition set: the user keywords unioned with the always-on
structural directives (`keywords.union(set(['INCLUDE','BEGIN','END']))`). -/
def recognised (cfg : Cfg) : List String :=
  cfg.keywords ++ ["INCLUDE", "BEGIN", "END"]

/-! ## Tree walker transitions -/

/-- Grep-mode record emission: when a pattern is set and it matches the
stripped line, append a record carrying the matched group. -/
def grepStep (cfg : Cfg) (st : WalkState) (line : String) : WalkState :=
  match cfg.pattern with
  | none => st
  | some pat =>
    match pat line with
    | none => st
    | some grp =>
      { st with records := st.records ++
          [⟨st.p, pyUpper st.encoding, st.lineNumber, grp, "",
            dotJoin st.svxPath, expandtabs line⟩] }

/-- Keyword record emission: inclusion in the output table is tested
against the original user set `self.keywords` alone. -/
def reportStep (cfg : Cfg) (st : WalkState) (line keyword uc : String)
    (arguments : List String) : WalkState :=
  if uc ∈ cfg.keywords then
    { st with records := st.records ++
        [⟨st.p, pyUpper st.encoding, st.lineNumber,
          (if cfg.preserveCase then keyword else uc),
          spaceJoin arguments, dotJoin st.svxPath, expandtabs line⟩] }
  else st

/-- BEGIN processing: with a non-empty argument, push the lower-cased
argument onto the survey path and remember the line for diagnostics; an
empty BEGIN only warns. -/
def beginStep (st : WalkState) (line uc : String) (arguments : List String) :
    WalkState :=
  if uc = "BEGIN" then
    match arguments with
    | [] => st
    | a :: _ =>
      { st with svxPath := st.svxPath ++ [pyLower a],
                beginLine := some (st.lineNumber, line) }
  else st

/-- END processing: with a non-empty argument, pop the survey path
(Python `list.pop()` on an empty list raises `IndexError`); in warn
mode a mismatch prints a diagnostic that reads the begin-line variable,
which raises `NameError` if no BEGIN ever bound it. -/
def endStep (cfg : Cfg) (st : WalkState) (uc : String) (arguments : List String) :
    Except PyErr WalkState :=
  if uc = "END" then
    match arguments with
    | [] => .ok st
    | a :: _ =>
      match st.svxPath.getLast? with
      | none => .error .indexError
      | some begin_path =>
        if cfg.warn ∧ pyLower a ≠ begin_path then
          match st.beginLine with
          | none => .error .nameError
          | some _ => .ok { st with svxPath := st.svxPath.dropLast }
        else .ok { st with svxPath := st.svxPath.dropLast }
  else .ok st

/-- INCLUDE processing: push the current file onto the stack, resolve
the argument relative to the current file's directory, and open the new
file (re-probing its encoding, line counter reset to 0). -/
def includeStep (fs : SvxFS) (st : WalkState) (uc : String)
    (arguments : List String) : Except PyErr WalkState :=
  if uc = "INCLUDE" then
    match svx_open fs (resolveInclude st.p arguments) with
    | .error e => .error e
    | .ok (lines, enc) =>
      .ok { st with
              stack := ⟨st.p, st.curLines, st.lineNumber, st.encoding⟩ :: st.stack,
              p := resolveInclude st.p arguments, curLines := lines,
              lineNumber := 0, encoding := enc,
              visited := st.visited ++ [resolveInclude st.p arguments] }
  else .ok st

/-- The ghost log of the stripped line handled by one inner-loop
iteration. -/
def addProcessed (st : WalkState) (line : String) : WalkState :=
  { st with processed := st.processed ++ [line] }

/-- Comment stripping:
`line.split(self.comment_char)[0].strip() if self.comment_char in line else line`. -/
def cleanOf (cfg : Cfg) (line : String) : String :=
  if cfg.commentChar ∈ line.toList then
    pyStrip (takeBeforeChar line cfg.commentChar)
  else line

/-- Error propagation from END processing into INCLUDE processing. -/
def afterEnd (fs : SvxFS) (uc : String) (arguments : List String) :
    Except PyErr WalkState → Except PyErr WalkState
  | .error e => .error e
  | .ok st5 => includeStep fs st5 uc arguments

/-- Processing of one raw line by the inner loop body of
`keyword_table` (the state has already consumed the line and
incremented the line counter): strip, grep-match, strip the comment,
extract the keyword, report, then handle BEGIN, END and INCLUDE in
order. -/
def processLine (cfg : Cfg) (fs : SvxFS) (st : WalkState) (raw : String) :
    Except PyErr WalkState :=
  match extract_keyword_arguments (cleanOf cfg (pyStrip raw)) (recognised cfg)
      cfg.keywordChar with
  | .error e => .error e
  | .ok (none, _) =>
    .ok (grepStep cfg (addProcessed st (pyStrip raw)) (pyStrip raw))
  | .ok (some keyword, arguments) =>
    afterEnd fs (pyUpper keyword) arguments
      (endStep cfg
        (beginStep
          (reportStep cfg (grepStep cfg (addProcessed st (pyStrip raw)) (pyStrip raw))
            (pyStrip raw) keyword (pyUpper keyword) arguments)
          (pyStrip raw) (pyUpper keyword) arguments)
        (pyUpper keyword) arguments)

/-- Result of one step of the walker. -/
inductive StepResult where
  | next (st : WalkState)
  | done (st : WalkState)
  | err (e : PyErr)
  deriving Inhabited

/-- Outcome of one line read: continue with the processed state, or
abort with the uncaught exception. -/
def readStep (cfg : Cfg) (fs : SvxFS) (st : WalkState) (raw : String) :
    StepResult :=
  match processLine cfg fs st raw with
  | .ok st' => .next st'
  | .error e => .err e

/-- One step of `keyword_table`'s nested loops: when the current file
has unread lines, read one (incrementing the counter) and process it;
otherwise close the file and pop the stack, terminating when the
sentinel (empty stack) is reached. -/
def step (cfg : Cfg) (fs : SvxFS) (st : WalkState) : StepResult :=
  match st.curLines with
  | [] =>
    match st.stack with
    | [] => .done { st with finished := st.finished ++ [st.p] }
    | fr :: rest =>
      .next { st with finished := st.finished ++ [st.p],
                      p := fr.p, curLines := fr.curLines,
                      lineNumber := fr.lineNumber, encoding := fr.encoding,
                      stack := rest }
  | raw :: rest =>
    readStep cfg fs { st with curLines := rest, lineNumber := st.lineNumber + 1 } raw

/-- Fuel-indexed iteration of `step`; `none` means the fuel ran out
before the traversal finished. -/
def runWalk (cfg : Cfg) (fs : SvxFS) : Nat → WalkState →
    Option (Except PyErr WalkState)
  | 0, _ => none
  | fuel + 1, st =>
    match step cfg fs st with
    | .done st' => some (.ok st')
    | .err e => some (.error e)
    | .next st' => runWalk cfg fs fuel st'

/-- The initial walker state: top-level file opened, line counter 0,
stacks empty, first trace line emitted. -/
def initState (fs : SvxFS) (top : SvxPath) : Except PyErr WalkState :=
  match svx_open fs top with
  | .error e => .error e
  | .ok (lines, enc) =>
    .ok { p := top, curLines := lines, lineNumber := 0, encoding := enc,
          stack := [], svxPath := [], beginLine := none, records := [],
          visited := [top], processed := [], finished := [] }

/-- `Analyzer.keyword_table`, as the final walker state (whose
`records` field is the returned dataframe); errors propagate uncaught
and `none` means the fuel ran out. -/
def keyword_table (cfg : Cfg) (fs : SvxFS) (top : SvxPath) (fuel : Nat) :
    Option (Except PyErr WalkState) :=
  match initState fs top with
  | .error e => some (.error e)
  | .ok st => runWalk cfg fs fuel st

/-- The output table of a finished run (empty for errors or exhausted
fuel). -/
def resultRecords (res : Option (Except PyErr WalkState)) : List Record :=
  match res with
  | some (.ok st) => st.records
  | _ => []

/-- Whether the run finished normally. -/
def isOk (res : Option (Except PyErr WalkState)) : Bool :=
  match res with
  | some (.ok _) => true
  | _ => false

/-- The final state of a finished run (junk default otherwise). -/
def finalState (res : Option (Except PyErr WalkState)) : WalkState :=
  match res with
  | some (.ok st) => st
  | _ => default

/-- Whether the run aborted with Python `NameError`. -/
def isNameError (res : Option (Except PyErr WalkState)) : Bool :=
  match res with
  | some (.error .nameError) => true
  | _ => false

/-- The process exit status set by the `__main__` wrapper: `sys.exit(1)`
exactly when the table is empty and grep mode is active; every other
path falls off the end of the script (exit status 0). -/
def exitStatus (grepMode : Bool) (table : List Record) : Nat :=
  if table.length ≠ 0 then 0 else if grepMode then 1 else 0

/-- Count of table rows whose directive name is INCLUDE (the stored
name is upper-cased unless `preserve_case` kept the source casing). -/
def countInclude (rs : List Record) : Nat :=
  (rs.filter (fun r => pyUpper r.keyword = "INCLUDE")).length

/-! ## Basic lemmas about the primitives -/

theorem toNat_ofNat_valid (n : Nat) (h : n < 55296) : (Char.ofNat n).toNat = n := by
  simp [Char.ofNat, h, Nat.isValidChar, Char.ofNatAux, Char.toNat]
  rfl

theorem upChar_idem (c : Char) : upChar (upChar c) = upChar c := by
  by_cases h : 97 ≤ c.toNat ∧ c.toNat ≤ 122
  · have h1 : upChar c = Char.ofNat (c.toNat - 32) := by simp [upChar, h]
    have h2 : (Char.ofNat (c.toNat - 32)).toNat = c.toNat - 32 :=
      toNat_ofNat_valid _ (by omega)
    rw [h1, upChar, if_neg]
    rw [h2]
    omega
  · have h1 : upChar c = c := by rw [upChar, if_neg h]
    rw [h1, h1]

theorem map_upChar_idem (l : List Char) : (l.map upChar).map upChar = l.map upChar := by
  induction l with
  | nil => rfl
  | cons c cs ih => simp only [List.map_cons, ih, upChar_idem]

theorem pyUpper_idem (s : String) : pyUpper (pyUpper s) = pyUpper s := by
  unfold pyUpper
  exact congrArg String.mk (map_upChar_idem s.toList)

theorem splitWsAux_all_ws (ws : List Char) (h : ∀ c ∈ ws, c.isWhitespace) :
    splitWsAux ws [] = [] := by
  induction ws with
  | nil => rfl
  | cons c cs ih =>
    have hc := h c (by simp)
    simp only [splitWsAux, hc, if_true]
    exact ih fun d hd => h d (by simp [hd])

theorem getElem?_of_drop_eq_cons {α : Type} {l : List α} {k : Nat} {a : α} {t : List α}
    (h : l.drop k = a :: t) : l[k]? = some a := by
  induction k generalizing l with
  | zero => simp at h; simp [h]
  | succ k ih =>
    cases l with
    | nil => simp at h
    | cons b l => simpa using ih h

theorem drop_succ_of_drop_eq_cons {α : Type} {l : List α} {k : Nat} {a : α} {t : List α}
    (h : l.drop k = a :: t) : l.drop (k + 1) = t := by
  rw [← List.drop_drop, h]
  rfl

/-! ## Concrete fixtures -/

/-- Top-level file of the C2 scenario: `*begin survey1` / `*fix P1` /
`*end survey1`. -/
def fsBeginFix : SvxFS :=
  [(["A.svx"], ⟨["*begin survey1", "*fix P1", "*end survey1"], true, true⟩)]

/-- Reporting set {BEGIN, FIX, END}. -/
def cfgBeginFixEnd : Cfg :=
  { keywords := ["BEGIN", "FIX", "END"], pattern := none,
    warn := false, preserveCase := false }

/-- Reporting set {FIX} alone. -/
def cfgFixOnly : Cfg :=
  { keywords := ["FIX"], pattern := none, warn := false, preserveCase := false }

/-- C2 counterexample: on the `*begin survey1` / `*fix P1` /
`*end survey1` scenario with reporting keywords {BEGIN, FIX, END}, it is
false that every BEGIN/END record has an empty context path: the END
record is emitted before the pop and carries context `survey1`. -/
theorem C2_counterexample :
    ((resultRecords (keyword_table cfgBeginFixEnd fsBeginFix ["A.svx"] 20)).all
      (fun r => !(r.keyword == "BEGIN" || r.keyword == "END") || r.path == ""))
      = false := by
  decide

/-- C2 amended: the scenario yields three records for {BEGIN, FIX, END}
(one for {FIX} alone); the FIX record's context path is `survey1`, the
BEGIN record's context is empty (emitted before the push), and the END
record's context is `survey1` (emitted before the pop, not after). -/
theorem C2_amended :
    resultRecords (keyword_table cfgBeginFixEnd fsBeginFix ["A.svx"] 20) =
      [⟨["A.svx"], "UTF-8", 1, "BEGIN", "survey1", "", "*begin survey1"⟩,
       ⟨["A.svx"], "UTF-8", 2, "FIX", "P1", "survey1", "*fix P1"⟩,
       ⟨["A.svx"], "UTF-8", 3, "END", "survey1", "survey1", "*end survey1"⟩] ∧
    resultRecords (keyword_table cfgFixOnly fsBeginFix ["A.svx"] 20) =
      [⟨["A.svx"], "UTF-8", 2, "FIX", "P1", "survey1", "*fix P1"⟩] := by
  exact ⟨rfl, rfl⟩

/-! ## C6: include path resolution -/

/-- The include path resolution as the specification words it: the
argument cleaned the same way, but with the canonical `.svx` suffix
*appended when absent* (rather than `pathlib`'s `with_suffix`
replacement).  Stated only for comparison with `resolveInclude`, the
definition taken from the source. -/
def resolveInclude_specReading (p : SvxPath) (arguments : List String) : SvxPath :=
  let comps := pathJoin p.dropLast (includeFilename arguments)
  match comps.getLast? with
  | none => comps
  | some name =>
    if (".svx".toList.reverse).isPrefixOf name.toList.reverse then comps
    else comps.dropLast ++ [name ++ ".svx"]

/-- C6 counterexample: for the include argument `B.txt` (a name whose
suffix is not `.svx`), the code replaces the suffix, yielding `B.svx`,
while the claim's "suffix appended if absent" yields `B.txt.svx`. -/
theorem C6_counterexample :
    resolveInclude ["A.svx"] ["B.txt"] = ["B.svx"] ∧
    resolveInclude_specReading ["A.svx"] ["B.txt"] = ["B.txt.svx"] ∧
    ((resolveInclude ["A.svx"] ["B.txt"] : SvxPath)
      == resolveInclude_specReading ["A.svx"] ["B.txt"]) = false := by
  exact ⟨rfl, rfl, rfl⟩

/-- Nested include tree: `A.svx` includes `sub/B`, whose file (only
latin-1 decodable) includes `C`, resolved relative to `sub/`. -/
def fsNested : SvxFS :=
  [(["A.svx"], ⟨["*include sub/B"], true, true⟩),
   (["sub", "B.svx"], ⟨["*include C"], false, true⟩),
   (["sub", "C.svx"], ⟨["*fix P"], true, true⟩)]

/-- C6 amended: the include argument is resolved relative to the
directory of the *currently processed* file (the resolution depends
only on the current file's parent, demonstrated on a nested tree where
`C` resolves under `sub/`), with surrounding double quotes stripped,
backslashes replaced by forward slashes, and the final extension
*replaced* by `.svx` (appended only when the name has no extension);
the new file's encoding is re-probed and its line counter reset (the
record from `sub/C.svx` is at line 1, and `sub/B.svx` was entered with
its own probed encoding). -/
theorem C6_amended :
    (∀ (p q : SvxPath) (arguments : List String), p.dropLast = q.dropLast →
        resolveInclude p arguments = resolveInclude q arguments) ∧
    resolveInclude ["cave", "A.svx"] ["\"sub\\B\""] = ["cave", "sub", "B.svx"] ∧
    resolveInclude ["A.svx"] ["B"] = ["B.svx"] ∧
    resolveInclude ["A.svx"] ["B.svx"] = ["B.svx"] ∧
    resolveInclude ["A.svx"] ["B.txt"] = ["B.svx"] ∧
    (finalState (keyword_table cfgFixOnly fsNested ["A.svx"] 30)).visited =
      [["A.svx"], ["sub", "B.svx"], ["sub", "C.svx"]] ∧
    resultRecords (keyword_table cfgFixOnly fsNested ["A.svx"] 30) =
      [⟨["sub", "C.svx"], "UTF-8", 1, "FIX", "P", "", "*fix P"⟩] := by
  refine ⟨fun p q arguments h => ?_, rfl, rfl, rfl, rfl, rfl, rfl⟩
  unfold resolveInclude
  rw [h]

/-- C6 witness: the parent-directory-only dependence applied at a
concrete pair of paths sharing a parent. -/
theorem C6_witness :
    resolveInclude ["x", "A.svx"] ["B"] = resolveInclude ["x", "D.svx"] ["B"] :=
  C6_amended.1 ["x", "A.svx"] ["x", "D.svx"] ["B"] rfl

/-! ## C7: encoding prober -/

/-- A tree whose included file `B.svx` no candidate encoding can
decode, while the top-level file already produced an INCLUDE record. -/
def fsEncodingFatal : SvxFS :=
  [(["A.svx"], ⟨["*include B"], true, true⟩),
   (["B.svx"], ⟨["x"], false, false⟩)]

/-- Reporting set {INCLUDE}. -/
def cfgIncludeOnly : Cfg :=
  { keywords := ["INCLUDE"], pattern := none, warn := false, preserveCase := false }

/-- C7: `svx_encoding` tries `utf-8` then `iso-8859-1` in that order,
returns the first candidate whose full-file trial decode succeeds, and
raises an encoding error exactly when neither candidate decodes the
file; the error is fatal for the whole traversal — on a tree whose
included file is undecodable the run terminates with the error and no
partial output table, even though a record had been accumulated. -/
theorem C7_encoding_prober :
    (∀ c : SvxContent,
      (svx_encoding c = .ok "utf-8" ↔ c.decUtf8 = true) ∧
      (svx_encoding c = .ok "iso-8859-1" ↔
        (c.decUtf8 = false ∧ c.decLatin = true)) ∧
      (svx_encoding c = .error .encodingError ↔
        (c.decUtf8 = false ∧ c.decLatin = false))) ∧
    keyword_table cfgIncludeOnly fsEncodingFatal ["A.svx"] 10 =
      some (.error .encodingError) ∧
    resultRecords (keyword_table cfgIncludeOnly fsEncodingFatal ["A.svx"] 10)
      = [] := by
  refine ⟨fun c => ?_, rfl, rfl⟩
  obtain ⟨ls, u, l⟩ := c
  cases u <;> cases l <;> simp [svx_encoding, decodes, List.find?]

/-! ## C9: marker-only lines -/

/-- C9: a cleaned line that is exactly the marker character, or the
marker followed only by whitespace, makes `extract_keyword_arguments`
raise `IndexError` whenever the recognized set is non-empty, instead of
returning the "no directive" result. -/
theorem C9_marker_only_line (ws : List Char) (keywords : List String) (kc : Char)
    (hws : ∀ c ∈ ws, c.isWhitespace) (hk : keywords ≠ []) :
    extract_keyword_arguments (String.mk (kc :: ws)) keywords kc =
      .error .indexError := by
  have hsplit : pySplit (String.mk ws) = [] := splitWsAux_all_ws ws hws
  have hne : String.mk (kc :: ws) ≠ "" := by
    intro h
    exact absurd (congrArg String.toList h) (by simp)
  have htail : (String.mk (kc :: ws)).toList.tail = ws := rfl
  unfold extract_keyword_arguments
  rw [if_pos ⟨hne, rfl⟩, htail, hsplit]
  simp [hk]

/-- C9 witness: the marker-only line `*` with recognized set
`["BEGIN"]`. -/
theorem C9_witness :
    extract_keyword_arguments "*" ["BEGIN"] '*' = .error .indexError :=
  C9_marker_only_line [] ["BEGIN"] '*' (by simp) (by simp)

/-! ## C3: two-token directive recognition (spec-modelled) -/

/-- Modelled from the spec: the two-word directive recognition of the
repository's other format variant.  The sources under `src/` contain
only the single-token `extract_keyword_arguments`, so the two-token
check is modelled from the specification's words: "detect by checking
the first two tokens jointly before falling back to single-token
matching". -/
def extract_two_token (twoTok : String × String) (clean : String)
    (keywords : List String) (kc : Char) :
    Except PyErr (Option String × List String) :=
  if clean ≠ "" ∧ clean.toList.headD ' ' = kc then
    match pySplit (String.mk clean.toList.tail) with
    | t0 :: t1 :: rest =>
      if pyUpper t0 = twoTok.1 ∧ pyUpper t1 = twoTok.2 then
        .ok (some (t0 ++ " " ++ t1), rest)
      else extract_keyword_arguments clean keywords kc
    | _ => extract_keyword_arguments clean keywords kc
  else .ok (none, [])

/-- C3: when the first two tokens jointly match the two-word directive,
the extractor returns that directive (with the remaining tokens as
arguments) — and this test comes first: in the ambiguous situation
where the first token alone also matches a recognized single-token
directive, plain single-token matching would have returned the shorter
directive instead. -/
theorem C3_two_token_first (twoTok : String × String) (clean : String)
    (keywords : List String) (kc : Char) (t0 t1 : String) (rest : List String)
    (hne : clean ≠ "") (hhead : clean.toList.headD ' ' = kc)
    (hsplit : pySplit (String.mk clean.toList.tail) = t0 :: t1 :: rest)
    (h0 : pyUpper t0 = twoTok.1) (h1 : pyUpper t1 = twoTok.2) :
    extract_two_token twoTok clean keywords kc =
      .ok (some (t0 ++ " " ++ t1), rest) ∧
    (pyUpper t0 ∈ keywords →
      extract_keyword_arguments clean keywords kc = .ok (some t0, t1 :: rest)) := by
  constructor
  · unfold extract_two_token
    rw [if_pos ⟨hne, hhead⟩, hsplit]
    simp [h0, h1]
  · intro hmem
    unfold extract_keyword_arguments
    rw [if_pos ⟨hne, hhead⟩, hsplit]
    simp [hmem]

/-- C3 witness: `*begin group x` with a two-word directive BEGIN GROUP
and the ambiguous single-token directive BEGIN recognized. -/
theorem C3_witness :
    extract_two_token ("BEGIN", "GROUP") "*begin group x" ["BEGIN"] '*' =
      .ok (some ("begin" ++ " " ++ "group"), ["x"]) ∧
    extract_keyword_arguments "*begin group x" ["BEGIN"] '*' =
      .ok (some "begin", ["group", "x"]) := by
  have h := C3_two_token_first ("BEGIN", "GROUP") "*begin group x" ["BEGIN"] '*'
    "begin" "group" ["x"] (by decide) rfl (by decide) rfl rfl
  exact ⟨h.1, h.2 (by decide)⟩

/-! ## Shape lemmas for the transition helpers -/

/-- Two walker states that agree on every field except possibly the
accumulated records. -/
structure SameX (s t : WalkState) : Prop where
  p : s.p = t.p
  curLines : s.curLines = t.curLines
  lineNumber : s.lineNumber = t.lineNumber
  encoding : s.encoding = t.encoding
  stack : s.stack = t.stack
  svxPath : s.svxPath = t.svxPath
  beginLine : s.beginLine = t.beginLine
  visited : s.visited = t.visited
  processed : s.processed = t.processed
  finished : s.finished = t.finished

theorem grepStep_sameX (cfg : Cfg) (st : WalkState) (l : String) :
    SameX (grepStep cfg st l) st := by
  unfold grepStep
  split
  · exact ⟨rfl, rfl, rfl, rfl, rfl, rfl, rfl, rfl, rfl, rfl⟩
  · split <;> exact ⟨rfl, rfl, rfl, rfl, rfl, rfl, rfl, rfl, rfl, rfl⟩

theorem reportStep_sameX (cfg : Cfg) (st : WalkState) (l k uc : String)
    (a : List String) : SameX (reportStep cfg st l k uc a) st := by
  unfold reportStep
  split
  · exact ⟨rfl, rfl, rfl, rfl, rfl, rfl, rfl, rfl, rfl, rfl⟩
  · exact ⟨rfl, rfl, rfl, rfl, rfl, rfl, rfl, rfl, rfl, rfl⟩

/-- Record growth of the grep step: appended records carry the current
file, line number and expanded line. -/
theorem grepStep_records (cfg : Cfg) (st : WalkState) (l : String) :
    ∃ rs, (grepStep cfg st l).records = st.records ++ rs ∧
      ∀ r ∈ rs, r.file = st.p ∧ r.line = st.lineNumber ∧ r.full = expandtabs l := by
  unfold grepStep
  split
  · exact ⟨[], by simp⟩
  · split
    · exact ⟨[], by simp⟩
    · refine ⟨[⟨st.p, pyUpper st.encoding, st.lineNumber, _, "",
        dotJoin st.svxPath, expandtabs l⟩], rfl, ?_⟩
      intro r hr
      simp at hr
      subst hr
      exact ⟨rfl, rfl, rfl⟩

/-- Record growth of the report step. -/
theorem reportStep_records (cfg : Cfg) (st : WalkState) (l k uc : String)
    (a : List String) :
    ∃ rs, (reportStep cfg st l k uc a).records = st.records ++ rs ∧
      ∀ r ∈ rs, r.file = st.p ∧ r.line = st.lineNumber ∧ r.full = expandtabs l := by
  unfold reportStep
  split
  · refine ⟨[⟨st.p, pyUpper st.encoding, st.lineNumber,
      (if cfg.preserveCase then k else uc), spaceJoin a, dotJoin st.svxPath,
      expandtabs l⟩], rfl, ?_⟩
    intro r hr
    simp at hr
    subst hr
    exact ⟨rfl, rfl, rfl⟩
  · exact ⟨[], by simp⟩

theorem grepStep_none (cfg : Cfg) (st : WalkState) (l : String)
    (h : cfg.pattern = none) : grepStep cfg st l = st := by
  unfold grepStep
  rw [h]

theorem reportStep_mem (cfg : Cfg) (st : WalkState) (l k uc : String)
    (a : List String) (h : uc ∈ cfg.keywords) :
    reportStep cfg st l k uc a =
      { st with records := st.records ++
          [⟨st.p, pyUpper st.encoding, st.lineNumber,
            (if cfg.preserveCase then k else uc), spaceJoin a,
            dotJoin st.svxPath, expandtabs l⟩] } := by
  unfold reportStep
  rw [if_pos h]

theorem reportStep_not_mem (cfg : Cfg) (st : WalkState) (l k uc : String)
    (a : List String) (h : uc ∉ cfg.keywords) :
    reportStep cfg st l k uc a = st := by
  unfold reportStep
  rw [if_neg h]

theorem beginStep_not (st : WalkState) (l uc : String) (a : List String)
    (h : uc ≠ "BEGIN") : beginStep st l uc a = st := by
  unfold beginStep
  rw [if_neg h]

theorem beginStep_nil (st : WalkState) (l : String) :
    beginStep st l "BEGIN" [] = st := by
  unfold beginStep
  rw [if_pos rfl]

theorem beginStep_cons (st : WalkState) (l : String) (a : String)
    (as : List String) :
    beginStep st l "BEGIN" (a :: as) =
      { st with svxPath := st.svxPath ++ [pyLower a],
                beginLine := some (st.lineNumber, l) } := by
  unfold beginStep
  rw [if_pos rfl]

theorem endStep_not (cfg : Cfg) (st : WalkState) (uc : String)
    (a : List String) (h : uc ≠ "END") : endStep cfg st uc a = .ok st := by
  unfold endStep
  rw [if_neg h]

theorem endStep_nil (cfg : Cfg) (st : WalkState) :
    endStep cfg st "END" [] = .ok st := by
  unfold endStep
  rw [if_pos rfl]

/-- Full characterization of END processing with a non-empty argument:
empty context stack means `IndexError`; otherwise the last element is
popped, and in warn mode a mismatch reads the begin-line variable,
raising `NameError` exactly when it was never bound. -/
theorem endStep_cons (cfg : Cfg) (st : WalkState) (a : String) (as : List String) :
    (st.svxPath = [] ∧ endStep cfg st "END" (a :: as) = .error .indexError) ∨
    (∃ bp, st.svxPath.getLast? = some bp ∧
      ((cfg.warn ∧ pyLower a ≠ bp ∧ st.beginLine = none ∧
          endStep cfg st "END" (a :: as) = .error .nameError) ∨
        endStep cfg st "END" (a :: as) =
          .ok { st with svxPath := st.svxPath.dropLast })) := by
  cases hl : st.svxPath.getLast? with
  | none =>
    left
    exact ⟨List.getLast?_eq_none_iff.mp hl, by simp [endStep, hl]⟩
  | some bp =>
    right
    refine ⟨bp, rfl, ?_⟩
    by_cases hw : cfg.warn ∧ pyLower a ≠ bp
    · cases hb : st.beginLine with
      | none => exact Or.inl ⟨hw.1, hw.2, rfl, by simp [endStep, hl, hb, hw]⟩
      | some y => exact Or.inr (by simp [endStep, hl, hb, hw])
    · exact Or.inr (by simp [endStep, hl, hw])

theorem includeStep_not (fs : SvxFS) (st : WalkState) (uc : String)
    (a : List String) (h : uc ≠ "INCLUDE") : includeStep fs st uc a = .ok st := by
  unfold includeStep
  rw [if_neg h]

/-- Full characterization of INCLUDE processing: failure of the open
propagates; success pushes the current frame, moves to the resolved
path with a fresh counter and encoding, and logs the visit. -/
theorem includeStep_inc (fs : SvxFS) (st : WalkState) (a : List String) :
    (∃ e, svx_open fs (resolveInclude st.p a) = .error e ∧
        includeStep fs st "INCLUDE" a = .error e) ∨
    (∃ lines enc, svx_open fs (resolveInclude st.p a) = .ok (lines, enc) ∧
        includeStep fs st "INCLUDE" a =
          .ok { st with
                  stack := ⟨st.p, st.curLines, st.lineNumber, st.encoding⟩ :: st.stack,
                  p := resolveInclude st.p a, curLines := lines, lineNumber := 0,
                  encoding := enc,
                  visited := st.visited ++ [resolveInclude st.p a] }) := by
  cases ho : svx_open fs (resolveInclude st.p a) with
  | error e => exact Or.inl ⟨e, rfl, by simp [includeStep, ho]⟩
  | ok pr =>
    obtain ⟨lines, enc⟩ := pr
    exact Or.inr ⟨lines, enc, rfl, by simp [includeStep, ho]⟩

/-- `extract_keyword_arguments` only ever raises `IndexError`. -/
theorem extract_error_index (clean : String) (keywords : List String) (kc : Char)
    (e : PyErr) (h : extract_keyword_arguments clean keywords kc = .error e) :
    e = .indexError := by
  unfold extract_keyword_arguments at h
  split at h
  · split at h
    · split at h <;> simp_all
    · split at h <;> simp_all
  · simp_all

/-- `svx_encoding` only ever raises the encoding error. -/
theorem svx_encoding_error (c : SvxContent) (e : PyErr)
    (h : svx_encoding c = .error e) : e = .encodingError := by
  unfold svx_encoding at h
  split at h <;> simp_all

/-- `svx_open` only ever raises the missing-file or encoding errors. -/
theorem svx_open_error (fs : SvxFS) (p : SvxPath) (e : PyErr)
    (h : svx_open fs p = .error e) : e = .fileNotFound ∨ e = .encodingError := by
  unfold svx_open at h
  split at h
  · injection h with h
    exact Or.inl h.symm
  · split at h
    · rename_i e2 heq
      injection h with h
      subst h
      exact Or.inr (svx_encoding_error _ _ heq)
    · simp at h

/-- `endStep` only raises `IndexError`, except for the warn-mode
mismatch diagnostic, which raises `NameError` only when no BEGIN ever
bound the begin-line variable while the context stack was non-empty. -/
theorem endStep_error (cfg : Cfg) (st : WalkState) (uc : String)
    (a : List String) (e : PyErr) (h : endStep cfg st uc a = .error e) :
    e = .indexError ∨ (e = .nameError ∧ st.beginLine = none ∧ st.svxPath ≠ []) := by
  unfold endStep at h
  split at h
  · split at h
    · simp at h
    · split at h
      · injection h with h
        exact Or.inl h.symm
      · rename_i bp hl
        split at h
        · split at h
          · rename_i hbl
            injection h with h
            refine Or.inr ⟨h.symm, hbl, ?_⟩
            intro hemp
            rw [hemp] at hl
            simp at hl
          · simp at h
        · simp at h
  · simp at h

/-- `includeStep` only raises the errors of `svx_open`. -/
theorem includeStep_error (fs : SvxFS) (st : WalkState) (uc : String)
    (a : List String) (e : PyErr) (h : includeStep fs st uc a = .error e) :
    e = .fileNotFound ∨ e = .encodingError := by
  unfold includeStep at h
  split at h
  · split at h
    · rename_i e2 ho
      injection h with h
      subst h
      exact svx_open_error _ _ _ ho
    · simp at h
  · simp at h

theorem afterEnd_error (fs : SvxFS) (uc : String) (a : List String) (e : PyErr) :
    afterEnd fs uc a (.error e) = .error e := rfl

theorem afterEnd_ok (fs : SvxFS) (uc : String) (a : List String) (st5 : WalkState) :
    afterEnd fs uc a (.ok st5) = includeStep fs st5 uc a := rfl

/-! ## The begin-line binding invariant (C10) -/

/-- Once the survey path is non-empty, the begin-line diagnostic
variable has been bound by some BEGIN. -/
def InvB (st : WalkState) : Prop :=
  st.svxPath ≠ [] → st.beginLine.isSome = true

theorem sameX_invB {s t : WalkState} (hs : SameX s t) (ht : InvB t) : InvB s := by
  intro hne
  rw [hs.beginLine]
  exact ht (by rwa [hs.svxPath] at hne)

theorem beginStep_invB (st : WalkState) (l uc : String) (a : List String)
    (h : InvB st) : InvB (beginStep st l uc a) := by
  unfold beginStep
  split
  · split
    · exact h
    · intro _
      rfl
  · exact h

theorem endStep_invB_ok (cfg : Cfg) (st : WalkState) (uc : String)
    (a : List String) (st' : WalkState) (h : InvB st)
    (hok : endStep cfg st uc a = .ok st') : InvB st' := by
  unfold endStep at hok
  split at hok
  · split at hok
    · injection hok with hok
      subst hok
      exact h
    · split at hok
      · simp at hok
      · rename_i bp hl
        have hsome : st.beginLine.isSome = true := by
          refine h ?_
          intro hemp
          rw [hemp] at hl
          simp at hl
        split at hok
        · split at hok
          · simp at hok
          · injection hok with hok
            subst hok
            intro _
            exact hsome
        · injection hok with hok
          subst hok
          intro _
          exact hsome
  · injection hok with hok
    subst hok
    exact h

theorem includeStep_invB_ok (fs : SvxFS) (st : WalkState) (uc : String)
    (a : List String) (st' : WalkState) (h : InvB st)
    (hok : includeStep fs st uc a = .ok st') : InvB st' := by
  unfold includeStep at hok
  split at hok
  · split at hok
    · simp at hok
    · injection hok with hok
      subst hok
      intro hne
      exact h hne
  · injection hok with hok
    subst hok
    exact h

theorem processLine_invB (cfg : Cfg) (fs : SvxFS) (st : WalkState) (raw : String)
    (h : InvB st) :
    (∀ st', processLine cfg fs st raw = .ok st' → InvB st') ∧
    (∀ e, processLine cfg fs st raw = .error e → e ≠ .nameError) := by
  have h2 : InvB (grepStep cfg (addProcessed st (pyStrip raw)) (pyStrip raw)) :=
    sameX_invB (grepStep_sameX _ _ _) h
  constructor
  · intro st' hok
    unfold processLine at hok
    split at hok
    · simp at hok
    · injection hok with hok
      subst hok
      exact h2
    · rename_i keyword arguments hexq
      have h3 : InvB (reportStep cfg
          (grepStep cfg (addProcessed st (pyStrip raw)) (pyStrip raw))
          (pyStrip raw) keyword (pyUpper keyword) arguments) :=
        sameX_invB (reportStep_sameX _ _ _ _ _ _) h2
      have h4 := beginStep_invB _ (pyStrip raw) (pyUpper keyword) arguments h3
      cases hend : endStep cfg
          (beginStep
            (reportStep cfg (grepStep cfg (addProcessed st (pyStrip raw)) (pyStrip raw))
              (pyStrip raw) keyword (pyUpper keyword) arguments)
            (pyStrip raw) (pyUpper keyword) arguments)
          (pyUpper keyword) arguments with
      | error e =>
        rw [hend, afterEnd_error] at hok
        simp at hok
      | ok st5 =>
        rw [hend, afterEnd_ok] at hok
        have h5 := endStep_invB_ok _ _ _ _ _ h4 hend
        exact includeStep_invB_ok _ _ _ _ _ h5 hok
  · intro e he
    unfold processLine at he
    split at he
    · rename_i e2 hex
      injection he with he
      subst he
      rw [extract_error_index _ _ _ _ hex]
      intro hc
      exact PyErr.noConfusion hc
    · simp at he
    · rename_i keyword arguments hexq
      have h3 : InvB (reportStep cfg
          (grepStep cfg (addProcessed st (pyStrip raw)) (pyStrip raw))
          (pyStrip raw) keyword (pyUpper keyword) arguments) :=
        sameX_invB (reportStep_sameX _ _ _ _ _ _) h2
      have h4 := beginStep_invB _ (pyStrip raw) (pyUpper keyword) arguments h3
      cases hend : endStep cfg
          (beginStep
            (reportStep cfg (grepStep cfg (addProcessed st (pyStrip raw)) (pyStrip raw))
              (pyStrip raw) keyword (pyUpper keyword) arguments)
            (pyStrip raw) (pyUpper keyword) arguments)
          (pyUpper keyword) arguments with
      | error e2 =>
        rw [hend, afterEnd_error] at he
        injection he with he
        subst he
        rcases endStep_error _ _ _ _ _ hend with hidx | ⟨hn, hbl, hsp⟩
        · rw [hidx]
          intro hc
          exact PyErr.noConfusion hc
        · have := h4 hsp
          rw [hbl] at this
          simp at this
      | ok st5 =>
        rw [hend, afterEnd_ok] at he
        rcases includeStep_error _ _ _ _ _ he with h' | h' <;>
          · rw [h']
            intro hc
            exact PyErr.noConfusion hc

/-! ### Equations for one walker step -/

theorem readStep_eq_ok (cfg : Cfg) (fs : SvxFS) (st : WalkState) (raw : String)
    (st' : WalkState) (h : processLine cfg fs st raw = .ok st') :
    readStep cfg fs st raw = .next st' := by
  unfold readStep
  rw [h]

theorem readStep_eq_error (cfg : Cfg) (fs : SvxFS) (st : WalkState) (raw : String)
    (e : PyErr) (h : processLine cfg fs st raw = .error e) :
    readStep cfg fs st raw = .err e := by
  unfold readStep
  rw [h]

theorem step_eq_done (cfg : Cfg) (fs : SvxFS) (st : WalkState)
    (h : st.curLines = []) (h2 : st.stack = []) :
    step cfg fs st = .done { st with finished := st.finished ++ [st.p] } := by
  unfold step
  rw [h, h2]

theorem step_eq_pop (cfg : Cfg) (fs : SvxFS) (st : WalkState) (fr : Frame)
    (rest : List Frame) (h : st.curLines = []) (h2 : st.stack = fr :: rest) :
    step cfg fs st =
      .next { st with finished := st.finished ++ [st.p],
                      p := fr.p, curLines := fr.curLines,
                      lineNumber := fr.lineNumber, encoding := fr.encoding,
                      stack := rest } := by
  unfold step
  rw [h, h2]

theorem step_eq_read (cfg : Cfg) (fs : SvxFS) (st : WalkState) (raw : String)
    (rest : List String) (h : st.curLines = raw :: rest) :
    step cfg fs st =
      readStep cfg fs { st with curLines := rest, lineNumber := st.lineNumber + 1 }
        raw := by
  unfold step
  rw [h]

/-- Every step outcome is one of the three shapes. -/
theorem step_cases (cfg : Cfg) (fs : SvxFS) (st : WalkState) :
    (st.curLines = [] ∧ st.stack = [] ∧
      step cfg fs st = .done { st with finished := st.finished ++ [st.p] }) ∨
    (∃ fr rest, st.curLines = [] ∧ st.stack = fr :: rest ∧
      step cfg fs st =
        .next { st with finished := st.finished ++ [st.p],
                        p := fr.p, curLines := fr.curLines,
                        lineNumber := fr.lineNumber, encoding := fr.encoding,
                        stack := rest }) ∨
    (∃ raw rest, st.curLines = raw :: rest ∧
      step cfg fs st = readStep cfg fs
        { st with curLines := rest, lineNumber := st.lineNumber + 1 } raw) := by
  cases hcl : st.curLines with
  | nil =>
    cases hstk : st.stack with
    | nil =>
      left
      refine ⟨rfl, rfl, ?_⟩
      rw [step_eq_done cfg fs st hcl hstk, hcl, hstk]
    | cons fr rest =>
      exact Or.inr (Or.inl ⟨fr, rest, rfl, rfl, step_eq_pop cfg fs st fr rest hcl hstk⟩)
  | cons raw rest =>
    exact Or.inr (Or.inr ⟨raw, rest, rfl, step_eq_read cfg fs st raw rest hcl⟩)

theorem step_invB (cfg : Cfg) (fs : SvxFS) (st : WalkState) (h : InvB st) :
    (∀ s, step cfg fs st = .next s → InvB s) ∧
    (∀ e, step cfg fs st = .err e → e ≠ .nameError) := by
  rcases step_cases cfg fs st with ⟨hcl, hstk, hs⟩ | ⟨fr, rest, hcl, hstk, hs⟩ |
    ⟨raw, rest, hcl, hs⟩
  · rw [hs]
    exact ⟨fun s hc => by simp at hc, fun e hc => by simp at hc⟩
  · rw [hs]
    constructor
    · intro s hc
      injection hc with hc
      subst hc
      intro hne
      exact h hne
    · intro e hc
      simp at hc
  · rw [hs]
    have hadv : InvB { st with curLines := rest, lineNumber := st.lineNumber + 1 } := h
    cases hp : processLine cfg fs
        { st with curLines := rest, lineNumber := st.lineNumber + 1 } raw with
    | ok st2 =>
      rw [readStep_eq_ok cfg fs _ raw st2 hp]
      constructor
      · intro s hc
        injection hc with hc
        subst hc
        exact (processLine_invB cfg fs _ raw hadv).1 st2 hp
      · intro e hc
        simp at hc
    | error e2 =>
      rw [readStep_eq_error cfg fs _ raw e2 hp]
      constructor
      · intro s hc
        simp at hc
      · intro e hc
        injection hc with hc
        subst hc
        exact (processLine_invB cfg fs _ raw hadv).2 e2 hp

/-! ## Generic preservation along the walk -/

theorem runWalk_preserve (cfg : Cfg) (fs : SvxFS) (P : WalkState → Prop)
    (hstep : ∀ st, P st →
      (∀ s, step cfg fs st = .next s → P s) ∧
      (∀ s, step cfg fs st = .done s → P s)) :
    ∀ (fuel : Nat) (st st' : WalkState), P st →
      runWalk cfg fs fuel st = some (.ok st') → P st' := by
  intro fuel
  induction fuel with
  | zero =>
    intro st st' _ h
    simp [runWalk] at h
  | succ fuel ih =>
    intro st st' hP hrun
    unfold runWalk at hrun
    cases hs : step cfg fs st with
    | done s =>
      rw [hs] at hrun
      simp only [Option.some.injEq, Except.ok.injEq] at hrun
      subst hrun
      exact (hstep st hP).2 _ hs
    | err e =>
      rw [hs] at hrun
      simp at hrun
    | next s =>
      rw [hs] at hrun
      simp only at hrun
      exact ih s st' ((hstep st hP).1 s hs) hrun

theorem runWalk_no_nameError (cfg : Cfg) (fs : SvxFS) (P : WalkState → Prop)
    (hstep : ∀ st, P st →
      (∀ s, step cfg fs st = .next s → P s) ∧
      (∀ e, step cfg fs st = .err e → e ≠ .nameError)) :
    ∀ (fuel : Nat) (st : WalkState), P st →
      isNameError (runWalk cfg fs fuel st) = false := by
  intro fuel
  induction fuel with
  | zero =>
    intro st _
    rfl
  | succ fuel ih =>
    intro st hP
    unfold runWalk
    cases hs : step cfg fs st with
    | done s => rfl
    | err e =>
      have hne := (hstep st hP).2 e hs
      cases e with
      | nameError => exact absurd rfl hne
      | fileNotFound => rfl
      | encodingError => rfl
      | indexError => rfl
    | next s => exact ih s ((hstep st hP).1 s hs)

/-- Shape of a successfully opened initial state. -/
theorem initState_ok (fs : SvxFS) (top : SvxPath) (st0 : WalkState)
    (h : initState fs top = .ok st0) :
    ∃ lines enc, svx_open fs top = .ok (lines, enc) ∧
      st0 = { p := top, curLines := lines, lineNumber := 0, encoding := enc,
              stack := [], svxPath := [], beginLine := none, records := [],
              visited := [top], processed := [], finished := [] } := by
  unfold initState at h
  split at h
  · simp at h
  · rename_i lines enc ho
    injection h with h
    exact ⟨lines, enc, by assumption, h.symm⟩

/-- Initial-state failures are the failures of `svx_open`. -/
theorem initState_error (fs : SvxFS) (top : SvxPath) (e : PyErr)
    (h : initState fs top = .error e) :
    e = .fileNotFound ∨ e = .encodingError := by
  unfold initState at h
  split at h
  · rename_i e2 ho
    injection h with h
    subst h
    exact svx_open_error _ _ _ ho
  · simp at h

/-- The traversal can never abort with Python `NameError`: the
diagnostic that reads the begin-line variable is only reached after a
successful pop, and a non-empty context stack implies the variable was
bound by the BEGIN that pushed it. -/
theorem keyword_table_no_nameError (cfg : Cfg) (fs : SvxFS) (top : SvxPath)
    (fuel : Nat) : isNameError (keyword_table cfg fs top fuel) = false := by
  unfold keyword_table
  cases hi : initState fs top with
  | error e =>
    rcases initState_error fs top e hi with h | h <;>
      · rw [h]
        rfl
  | ok st0 =>
    obtain ⟨lines, enc, ho, hst0⟩ := initState_ok fs top st0 hi
    have h0 : InvB st0 := by
      rw [hst0]
      intro hne
      exact absurd rfl hne
    exact runWalk_no_nameError cfg fs InvB
      (fun st h => step_invB cfg fs st h) fuel st0 h0

/-! ## C10: END before any BEGIN -/

/-- A top-level file whose only line is `*end x`. -/
def fsEndFirst : SvxFS := [(["A.svx"], ⟨["*end x"], true, true⟩)]

/-- Warn-mode configuration with {BEGIN, END} reported. -/
def cfgWarnBE : Cfg :=
  { keywords := ["BEGIN", "END"], pattern := none, warn := true,
    preserveCase := false }

/-- C10 counterexample: an END with a non-empty argument before any
BEGIN, in warn mode, aborts with `IndexError` from popping the empty
context stack — the claimed unbound-variable (`NameError`) reference is
never reached, because the pop precedes the diagnostic. -/
theorem C10_counterexample :
    keyword_table cfgWarnBE fsEndFirst ["A.svx"] 10 =
      some (.error .indexError) ∧
    isNameError (keyword_table cfgWarnBE fsEndFirst ["A.svx"] 10) = false := by
  exact ⟨rfl, rfl⟩

/-- C10 amended: an END directive with a non-empty argument on an empty
context stack makes `keyword_table` raise an uncaught `IndexError` from
popping the empty list, aborting the traversal with no result table (in
warn mode too); the unbound begin-line variable, however, can never be
referenced: no run of `keyword_table` aborts with `NameError`, because
the empty-stack pop always precedes the warn-mode diagnostic and a
successful pop implies a BEGIN bound the variable. -/
theorem C10_amended :
    keyword_table cfgWarnBE fsEndFirst ["A.svx"] 10 =
      some (.error .indexError) ∧
    resultRecords (keyword_table cfgWarnBE fsEndFirst ["A.svx"] 10) = [] ∧
    ∀ (cfg : Cfg) (fs : SvxFS) (top : SvxPath) (fuel : Nat),
      isNameError (keyword_table cfg fs top fuel) = false := by
  exact ⟨rfl, rfl, keyword_table_no_nameError⟩

/-! ## C1: the reporting set does not influence the traversal -/

/-- Erase the accumulated records — the only state component the
reporting keyword set and case flag can influence. -/
def eraseRecords (st : WalkState) : WalkState := { st with records := [] }

theorem erase_p (st : WalkState) : (eraseRecords st).p = st.p := rfl

theorem erase_curLines (st : WalkState) :
    (eraseRecords st).curLines = st.curLines := rfl

theorem erase_lineNumber (st : WalkState) :
    (eraseRecords st).lineNumber = st.lineNumber := rfl

theorem erase_encoding (st : WalkState) :
    (eraseRecords st).encoding = st.encoding := rfl

theorem erase_stack (st : WalkState) : (eraseRecords st).stack = st.stack := rfl

theorem erase_svxPath (st : WalkState) :
    (eraseRecords st).svxPath = st.svxPath := rfl

theorem erase_beginLine (st : WalkState) :
    (eraseRecords st).beginLine = st.beginLine := rfl

theorem erase_visited (st : WalkState) :
    (eraseRecords st).visited = st.visited := rfl

theorem erase_processed (st : WalkState) :
    (eraseRecords st).processed = st.processed := rfl

theorem erase_finished (st : WalkState) :
    (eraseRecords st).finished = st.finished := rfl

theorem erase_eq_of_sameX {s t : WalkState} (h : SameX s t) :
    eraseRecords s = eraseRecords t := by
  obtain ⟨h1, h2, h3, h4, h5, h6, h7, h8, h9, h10⟩ := h
  cases s
  cases t
  simp_all [eraseRecords]

theorem sameX_of_erase_eq {s t : WalkState} (h : eraseRecords s = eraseRecords t) :
    SameX s t := by
  refine ⟨?_, ?_, ?_, ?_, ?_, ?_, ?_, ?_, ?_, ?_⟩
  · show (eraseRecords s).p = (eraseRecords t).p
    rw [h]
  · show (eraseRecords s).curLines = (eraseRecords t).curLines
    rw [h]
  · show (eraseRecords s).lineNumber = (eraseRecords t).lineNumber
    rw [h]
  · show (eraseRecords s).encoding = (eraseRecords t).encoding
    rw [h]
  · show (eraseRecords s).stack = (eraseRecords t).stack
    rw [h]
  · show (eraseRecords s).svxPath = (eraseRecords t).svxPath
    rw [h]
  · show (eraseRecords s).beginLine = (eraseRecords t).beginLine
    rw [h]
  · show (eraseRecords s).visited = (eraseRecords t).visited
    rw [h]
  · show (eraseRecords s).processed = (eraseRecords t).processed
    rw [h]
  · show (eraseRecords s).finished = (eraseRecords t).finished
    rw [h]

theorem grepStep_erase (cfg : Cfg) (st : WalkState) (l : String) :
    eraseRecords (grepStep cfg st l) = eraseRecords st :=
  erase_eq_of_sameX (grepStep_sameX cfg st l)

theorem reportStep_erase (cfg : Cfg) (st : WalkState) (l k uc : String)
    (a : List String) :
    eraseRecords (reportStep cfg st l k uc a) = eraseRecords st :=
  erase_eq_of_sameX (reportStep_sameX cfg st l k uc a)

theorem addProcessed_erase (st : WalkState) (l : String) :
    eraseRecords (addProcessed st l) = addProcessed (eraseRecords st) l := rfl

theorem beginStep_erase (st : WalkState) (l uc : String) (a : List String) :
    eraseRecords (beginStep st l uc a) = beginStep (eraseRecords st) l uc a := by
  unfold beginStep
  split
  · split <;> rfl
  · rfl

theorem endStep_erase (cfg : Cfg) (st : WalkState) (uc : String)
    (a : List String) :
    (endStep cfg st uc a).map eraseRecords = endStep cfg (eraseRecords st) uc a := by
  unfold endStep
  simp only [erase_svxPath, erase_beginLine]
  split
  · split
    · rfl
    · split
      · rfl
      · split
        · split <;> rfl
        · rfl
  · rfl

theorem endStep_congr_warn (cfg₁ cfg₂ : Cfg) (st : WalkState) (uc : String)
    (a : List String) (hw : cfg₁.warn = cfg₂.warn) :
    endStep cfg₁ st uc a = endStep cfg₂ st uc a := by
  unfold endStep
  rw [hw]

theorem includeStep_erase (fs : SvxFS) (st : WalkState) (uc : String)
    (a : List String) :
    (includeStep fs st uc a).map eraseRecords =
      includeStep fs (eraseRecords st) uc a := by
  unfold includeStep
  simp only [erase_p, erase_curLines, erase_lineNumber, erase_encoding,
    erase_stack, erase_visited]
  split
  · split <;> rfl
  · rfl

/-! ### Equations for the directive extractor -/

theorem extract_not_marker (clean : String) (kws : List String) (kc : Char)
    (hg : ¬(clean ≠ "" ∧ clean.toList.headD ' ' = kc)) :
    extract_keyword_arguments clean kws kc = .ok (none, []) := by
  simp only [extract_keyword_arguments, if_neg hg]

theorem extract_empty_split (clean : String) (kws : List String) (kc : Char)
    (hg : clean ≠ "" ∧ clean.toList.headD ' ' = kc)
    (hsp : pySplit (String.mk clean.toList.tail) = [])
    (hne : kws ≠ []) :
    extract_keyword_arguments clean kws kc = .error .indexError := by
  simp only [extract_keyword_arguments, if_pos hg, hsp, if_neg hne]

theorem extract_first_mem (clean : String) (kws : List String) (kc : Char)
    (w : String) (ws : List String)
    (hg : clean ≠ "" ∧ clean.toList.headD ' ' = kc)
    (hsp : pySplit (String.mk clean.toList.tail) = w :: ws)
    (hm : pyUpper w ∈ kws) :
    extract_keyword_arguments clean kws kc = .ok (some w, ws) := by
  simp only [extract_keyword_arguments, if_pos hg, hsp, if_pos hm]

theorem extract_first_not_mem (clean : String) (kws : List String) (kc : Char)
    (w : String) (ws : List String)
    (hg : clean ≠ "" ∧ clean.toList.headD ' ' = kc)
    (hsp : pySplit (String.mk clean.toList.tail) = w :: ws)
    (hm : pyUpper w ∉ kws) :
    extract_keyword_arguments clean kws kc = .ok (none, []) := by
  simp only [extract_keyword_arguments, if_pos hg, hsp, if_neg hm]

/-- Against two recognition sets that both contain the structural
directives, the extractor either returns the same result, or exactly
one side recognizes a token — necessarily a non-structural one. -/
theorem extract_union_cases (clean : String) (kc : Char) (K₁ K₂ : List String) :
    extract_keyword_arguments clean (K₁ ++ ["INCLUDE", "BEGIN", "END"]) kc =
      extract_keyword_arguments clean (K₂ ++ ["INCLUDE", "BEGIN", "END"]) kc ∨
    ∃ w ws, pyUpper w ∉ (["INCLUDE", "BEGIN", "END"] : List String) ∧
      ((extract_keyword_arguments clean (K₁ ++ ["INCLUDE", "BEGIN", "END"]) kc =
          .ok (some w, ws) ∧
        extract_keyword_arguments clean (K₂ ++ ["INCLUDE", "BEGIN", "END"]) kc =
          .ok (none, [])) ∨
       (extract_keyword_arguments clean (K₂ ++ ["INCLUDE", "BEGIN", "END"]) kc =
          .ok (some w, ws) ∧
        extract_keyword_arguments clean (K₁ ++ ["INCLUDE", "BEGIN", "END"]) kc =
          .ok (none, []))) := by
  by_cases hg : clean ≠ "" ∧ clean.toList.headD ' ' = kc
  · cases hsp : pySplit (String.mk clean.toList.tail) with
    | nil =>
      left
      rw [extract_empty_split clean _ kc hg hsp (by simp),
        extract_empty_split clean _ kc hg hsp (by simp)]
    | cons w ws =>
      by_cases h1 : pyUpper w ∈ K₁ ++ ["INCLUDE", "BEGIN", "END"] <;>
        by_cases h2 : pyUpper w ∈ K₂ ++ ["INCLUDE", "BEGIN", "END"]
      · left
        rw [extract_first_mem clean _ kc w ws hg hsp h1,
          extract_first_mem clean _ kc w ws hg hsp h2]
      · right
        refine ⟨w, ws, fun hmem => h2 (List.mem_append_right _ hmem),
          Or.inl ⟨extract_first_mem clean _ kc w ws hg hsp h1,
            extract_first_not_mem clean _ kc w ws hg hsp h2⟩⟩
      · right
        refine ⟨w, ws, fun hmem => h1 (List.mem_append_right _ hmem),
          Or.inr ⟨extract_first_mem clean _ kc w ws hg hsp h2,
            extract_first_not_mem clean _ kc w ws hg hsp h1⟩⟩
      · left
        rw [extract_first_not_mem clean _ kc w ws hg hsp h1,
          extract_first_not_mem clean _ kc w ws hg hsp h2]
  · left
    rw [extract_not_marker clean _ kc hg, extract_not_marker clean _ kc hg]

/-! ### Equations for one-line processing -/

theorem recognised_def (cfg : Cfg) :
    recognised cfg = cfg.keywords ++ ["INCLUDE", "BEGIN", "END"] := rfl

theorem processLine_eq_error (cfg : Cfg) (fs : SvxFS) (st : WalkState)
    (raw : String) (e : PyErr)
    (hex : extract_keyword_arguments (cleanOf cfg (pyStrip raw)) (recognised cfg)
      cfg.keywordChar = .error e) :
    processLine cfg fs st raw = .error e := by
  unfold processLine
  rw [hex]

theorem processLine_eq_none (cfg : Cfg) (fs : SvxFS) (st : WalkState)
    (raw : String) (rest : List String)
    (hex : extract_keyword_arguments (cleanOf cfg (pyStrip raw)) (recognised cfg)
      cfg.keywordChar = .ok (none, rest)) :
    processLine cfg fs st raw =
      .ok (grepStep cfg (addProcessed st (pyStrip raw)) (pyStrip raw)) := by
  unfold processLine
  rw [hex]

theorem processLine_eq_some (cfg : Cfg) (fs : SvxFS) (st : WalkState)
    (raw : String) (keyword : String) (arguments : List String)
    (hex : extract_keyword_arguments (cleanOf cfg (pyStrip raw)) (recognised cfg)
      cfg.keywordChar = .ok (some keyword, arguments)) :
    processLine cfg fs st raw =
      afterEnd fs (pyUpper keyword) arguments
        (endStep cfg
          (beginStep
            (reportStep cfg
              (grepStep cfg (addProcessed st (pyStrip raw)) (pyStrip raw))
              (pyStrip raw) keyword (pyUpper keyword) arguments)
            (pyStrip raw) (pyUpper keyword) arguments)
          (pyUpper keyword) arguments) := by
  unfold processLine
  rw [hex]

/-- Changing the user keyword set (and the case-preservation flag)
changes at most the emitted records of one line step; on
record-erased states the results agree. -/
theorem processLine_erase (cfg₁ cfg₂ : Cfg) (fs : SvxFS) (st₁ st₂ : WalkState)
    (raw : String)
    (hkc : cfg₁.keywordChar = cfg₂.keywordChar)
    (hcc : cfg₁.commentChar = cfg₂.commentChar)
    (hw : cfg₁.warn = cfg₂.warn)
    (hst : eraseRecords st₁ = eraseRecords st₂) :
    (processLine cfg₁ fs st₁ raw).map eraseRecords =
      (processLine cfg₂ fs st₂ raw).map eraseRecords := by
  have hclean : cleanOf cfg₁ (pyStrip raw) = cleanOf cfg₂ (pyStrip raw) := by
    unfold cleanOf
    rw [hcc]
  have hg : eraseRecords (grepStep cfg₁ (addProcessed st₁ (pyStrip raw)) (pyStrip raw)) =
      eraseRecords (grepStep cfg₂ (addProcessed st₂ (pyStrip raw)) (pyStrip raw)) := by
    rw [grepStep_erase, grepStep_erase, addProcessed_erase, addProcessed_erase, hst]
  have hE1 : extract_keyword_arguments (cleanOf cfg₁ (pyStrip raw)) (recognised cfg₁)
      cfg₁.keywordChar =
      extract_keyword_arguments (cleanOf cfg₂ (pyStrip raw))
        (cfg₁.keywords ++ ["INCLUDE", "BEGIN", "END"]) cfg₂.keywordChar := by
    rw [hclean, hkc, recognised_def]
  have hE2 : extract_keyword_arguments (cleanOf cfg₂ (pyStrip raw)) (recognised cfg₂)
      cfg₂.keywordChar =
      extract_keyword_arguments (cleanOf cfg₂ (pyStrip raw))
        (cfg₂.keywords ++ ["INCLUDE", "BEGIN", "END"]) cfg₂.keywordChar := by
    rw [recognised_def]
  have hbchain : ∀ keyword arguments,
      eraseRecords (beginStep
        (reportStep cfg₁ (grepStep cfg₁ (addProcessed st₁ (pyStrip raw)) (pyStrip raw))
          (pyStrip raw) keyword (pyUpper keyword) arguments)
        (pyStrip raw) (pyUpper keyword) arguments) =
      eraseRecords (beginStep
        (reportStep cfg₂ (grepStep cfg₂ (addProcessed st₂ (pyStrip raw)) (pyStrip raw))
          (pyStrip raw) keyword (pyUpper keyword) arguments)
        (pyStrip raw) (pyUpper keyword) arguments) := by
    intro keyword arguments
    rw [beginStep_erase, beginStep_erase, reportStep_erase, reportStep_erase, hg]
  rcases extract_union_cases (cleanOf cfg₂ (pyStrip raw)) cfg₂.keywordChar
      cfg₁.keywords cfg₂.keywords with heq | ⟨w, ws, hwn, hdiv⟩
  · cases hre : extract_keyword_arguments (cleanOf cfg₂ (pyStrip raw))
        (cfg₂.keywords ++ ["INCLUDE", "BEGIN", "END"]) cfg₂.keywordChar with
    | error e =>
      rw [processLine_eq_error cfg₁ fs st₁ raw e (by rw [hE1, heq, hre]),
          processLine_eq_error cfg₂ fs st₂ raw e (by rw [hE2, hre])]
    | ok pr =>
      obtain ⟨kopt, args⟩ := pr
      cases kopt with
      | none =>
        rw [processLine_eq_none cfg₁ fs st₁ raw args (by rw [hE1, heq, hre]),
            processLine_eq_none cfg₂ fs st₂ raw args (by rw [hE2, hre])]
        show Except.ok _ = Except.ok _
        rw [hg]
      | some keyword =>
        rw [processLine_eq_some cfg₁ fs st₁ raw keyword args (by rw [hE1, heq, hre]),
            processLine_eq_some cfg₂ fs st₂ raw keyword args (by rw [hE2, hre])]
        have hend : (endStep cfg₁
            (beginStep
              (reportStep cfg₁ (grepStep cfg₁ (addProcessed st₁ (pyStrip raw)) (pyStrip raw))
                (pyStrip raw) keyword (pyUpper keyword) args)
              (pyStrip raw) (pyUpper keyword) args)
            (pyUpper keyword) args).map eraseRecords =
            (endStep cfg₂
            (beginStep
              (reportStep cfg₂ (grepStep cfg₂ (addProcessed st₂ (pyStrip raw)) (pyStrip raw))
                (pyStrip raw) keyword (pyUpper keyword) args)
              (pyStrip raw) (pyUpper keyword) args)
            (pyUpper keyword) args).map eraseRecords := by
          rw [endStep_erase, endStep_erase, hbchain keyword args,
            endStep_congr_warn cfg₁ cfg₂ _ _ _ hw]
        cases he1 : endStep cfg₁
            (beginStep
              (reportStep cfg₁ (grepStep cfg₁ (addProcessed st₁ (pyStrip raw)) (pyStrip raw))
                (pyStrip raw) keyword (pyUpper keyword) args)
              (pyStrip raw) (pyUpper keyword) args)
            (pyUpper keyword) args with
        | error e =>
          rw [he1] at hend
          cases he2 : endStep cfg₂
              (beginStep
                (reportStep cfg₂ (grepStep cfg₂ (addProcessed st₂ (pyStrip raw)) (pyStrip raw))
                  (pyStrip raw) keyword (pyUpper keyword) args)
                (pyStrip raw) (pyUpper keyword) args)
              (pyUpper keyword) args with
          | error e2 =>
            rw [he2] at hend
            simp only [Except.map] at hend
            injection hend with hend
            subst hend
            rfl
          | ok s2 =>
            rw [he2] at hend
            simp [Except.map] at hend
        | ok s1 =>
          rw [he1] at hend
          cases he2 : endStep cfg₂
              (beginStep
                (reportStep cfg₂ (grepStep cfg₂ (addProcessed st₂ (pyStrip raw)) (pyStrip raw))
                  (pyStrip raw) keyword (pyUpper keyword) args)
                (pyStrip raw) (pyUpper keyword) args)
              (pyUpper keyword) args with
          | error e2 =>
            rw [he2] at hend
            simp [Except.map] at hend
          | ok s2 =>
            rw [he2] at hend
            simp only [Except.map] at hend
            injection hend with hend
            rw [afterEnd_ok, afterEnd_ok, includeStep_erase, includeStep_erase, hend]
  · have hstruct : pyUpper w ≠ "BEGIN" ∧ pyUpper w ≠ "END" ∧ pyUpper w ≠ "INCLUDE" := by
      refine ⟨?_, ?_, ?_⟩ <;> intro hc <;> exact hwn (by rw [hc]; simp)
    have habsorb : ∀ (cfg : Cfg) (st : WalkState) (args : List String),
        afterEnd fs (pyUpper w) args
          (endStep cfg
            (beginStep
              (reportStep cfg (grepStep cfg (addProcessed st (pyStrip raw)) (pyStrip raw))
                (pyStrip raw) w (pyUpper w) args)
              (pyStrip raw) (pyUpper w) args)
            (pyUpper w) args) =
        .ok (reportStep cfg (grepStep cfg (addProcessed st (pyStrip raw)) (pyStrip raw))
              (pyStrip raw) w (pyUpper w) args) := by
      intro cfg st args
      rw [beginStep_not _ _ _ _ hstruct.1, endStep_not _ _ _ _ hstruct.2.1,
        afterEnd_ok, includeStep_not _ _ _ _ hstruct.2.2]
    rcases hdiv with ⟨hx1, hx2⟩ | ⟨hx2, hx1⟩
    · rw [processLine_eq_some cfg₁ fs st₁ raw w ws (by rw [hE1, hx1]),
          processLine_eq_none cfg₂ fs st₂ raw [] (by rw [hE2, hx2]),
          habsorb cfg₁ st₁ ws]
      show Except.ok _ = Except.ok _
      rw [reportStep_erase, grepStep_erase, grepStep_erase,
        addProcessed_erase, addProcessed_erase, hst]
    · rw [processLine_eq_some cfg₂ fs st₂ raw w ws (by rw [hE2, hx2]),
          processLine_eq_none cfg₁ fs st₁ raw [] (by rw [hE1, hx1]),
          habsorb cfg₂ st₂ ws]
      show Except.ok _ = Except.ok _
      rw [reportStep_erase, grepStep_erase, grepStep_erase,
        addProcessed_erase, addProcessed_erase, hst]

/-- Erasure lifted to step results. -/
def eraseStep : StepResult → StepResult
  | .next s => .next (eraseRecords s)
  | .done s => .done (eraseRecords s)
  | .err e => .err e

/-- Erasure lifted to run results. -/
def eraseResult : Option (Except PyErr WalkState) → Option (Except PyErr WalkState)
  | some (.ok st) => some (.ok (eraseRecords st))
  | r => r

/-- One walker step under two configurations that agree on the marker
characters and the warn flag (the reporting keyword set, the
case-preservation flag and even the grep pattern may differ) produces
the same outcome up to the accumulated records. -/
theorem step_erase (cfg₁ cfg₂ : Cfg) (fs : SvxFS) (st₁ st₂ : WalkState)
    (hkc : cfg₁.keywordChar = cfg₂.keywordChar)
    (hcc : cfg₁.commentChar = cfg₂.commentChar)
    (hw : cfg₁.warn = cfg₂.warn)
    (hst : eraseRecords st₁ = eraseRecords st₂) :
    eraseStep (step cfg₁ fs st₁) = eraseStep (step cfg₂ fs st₂) := by
  have hsame := sameX_of_erase_eq hst
  rcases step_cases cfg₁ fs st₁ with ⟨hcl, hstk, hs⟩ | ⟨fr, rest, hcl, hstk, hs⟩ |
    ⟨raw, rest, hcl, hs⟩
  · rw [hs, step_eq_done cfg₂ fs st₂ (by rw [← hsame.curLines]; exact hcl)
      (by rw [← hsame.stack]; exact hstk)]
    simp only [eraseStep]
    refine congrArg _ (erase_eq_of_sameX ⟨hsame.p, hsame.curLines, hsame.lineNumber,
      hsame.encoding, hsame.stack, hsame.svxPath, hsame.beginLine, hsame.visited,
      hsame.processed, ?_⟩)
    show st₁.finished ++ [st₁.p] = st₂.finished ++ [st₂.p]
    rw [hsame.finished, hsame.p]
  · rw [hs, step_eq_pop cfg₂ fs st₂ fr rest (by rw [← hsame.curLines]; exact hcl)
      (by rw [← hsame.stack]; exact hstk)]
    simp only [eraseStep]
    refine congrArg _ (erase_eq_of_sameX ⟨rfl, rfl, rfl, rfl, rfl, hsame.svxPath,
      hsame.beginLine, hsame.visited, hsame.processed, ?_⟩)
    show st₁.finished ++ [st₁.p] = st₂.finished ++ [st₂.p]
    rw [hsame.finished, hsame.p]
  · rw [hs, step_eq_read cfg₂ fs st₂ raw rest (by rw [← hsame.curLines]; exact hcl)]
    have hadv :
        eraseRecords { st₁ with curLines := rest, lineNumber := st₁.lineNumber + 1 } =
          eraseRecords { st₂ with curLines := rest, lineNumber := st₂.lineNumber + 1 } :=
      erase_eq_of_sameX ⟨hsame.p, rfl,
        (by show st₁.lineNumber + 1 = st₂.lineNumber + 1; rw [hsame.lineNumber]),
        hsame.encoding, hsame.stack, hsame.svxPath, hsame.beginLine, hsame.visited,
        hsame.processed, hsame.finished⟩
    have hpl := processLine_erase cfg₁ cfg₂ fs _ _ raw hkc hcc hw hadv
    cases hp1 : processLine cfg₁ fs
        { st₁ with curLines := rest, lineNumber := st₁.lineNumber + 1 } raw with
    | ok s1 =>
      rw [hp1] at hpl
      cases hp2 : processLine cfg₂ fs
          { st₂ with curLines := rest, lineNumber := st₂.lineNumber + 1 } raw with
      | ok s2 =>
        rw [hp2] at hpl
        simp only [Except.map] at hpl
        injection hpl with hpl
        rw [readStep_eq_ok _ _ _ _ _ hp1, readStep_eq_ok _ _ _ _ _ hp2]
        simp only [eraseStep]
        rw [hpl]
      | error e2 =>
        rw [hp2] at hpl
        simp [Except.map] at hpl
    | error e1 =>
      rw [hp1] at hpl
      cases hp2 : processLine cfg₂ fs
          { st₂ with curLines := rest, lineNumber := st₂.lineNumber + 1 } raw with
      | ok s2 =>
        rw [hp2] at hpl
        simp [Except.map] at hpl
      | error e2 =>
        rw [hp2] at hpl
        simp only [Except.map] at hpl
        injection hpl with hpl
        subst hpl
        rw [readStep_eq_error _ _ _ _ _ hp1, readStep_eq_error _ _ _ _ _ hp2]

theorem runWalk_erase (cfg₁ cfg₂ : Cfg) (fs : SvxFS)
    (hkc : cfg₁.keywordChar = cfg₂.keywordChar)
    (hcc : cfg₁.commentChar = cfg₂.commentChar)
    (hw : cfg₁.warn = cfg₂.warn) :
    ∀ (fuel : Nat) (st₁ st₂ : WalkState), eraseRecords st₁ = eraseRecords st₂ →
      eraseResult (runWalk cfg₁ fs fuel st₁) =
        eraseResult (runWalk cfg₂ fs fuel st₂) := by
  intro fuel
  induction fuel with
  | zero =>
    intro st₁ st₂ _
    rfl
  | succ fuel ih =>
    intro st₁ st₂ hst
    have hs := step_erase cfg₁ cfg₂ fs st₁ st₂ hkc hcc hw hst
    unfold runWalk
    cases h1 : step cfg₁ fs st₁ with
    | done s1 =>
      rw [h1] at hs
      cases h2 : step cfg₂ fs st₂ with
      | done s2 =>
        rw [h2] at hs
        simp only [eraseStep] at hs
        injection hs with hs
        show (some (Except.ok (eraseRecords s1)) : Option (Except PyErr WalkState)) =
          some (Except.ok (eraseRecords s2))
        rw [hs]
      | next s2 =>
        rw [h2] at hs
        simp [eraseStep] at hs
      | err e2 =>
        rw [h2] at hs
        simp [eraseStep] at hs
    | err e1 =>
      rw [h1] at hs
      cases h2 : step cfg₂ fs st₂ with
      | err e2 =>
        rw [h2] at hs
        simp only [eraseStep] at hs
        injection hs with hs
        subst hs
        rfl
      | next s2 =>
        rw [h2] at hs
        simp [eraseStep] at hs
      | done s2 =>
        rw [h2] at hs
        simp [eraseStep] at hs
    | next s1 =>
      rw [h1] at hs
      cases h2 : step cfg₂ fs st₂ with
      | next s2 =>
        rw [h2] at hs
        simp only [eraseStep] at hs
        injection hs with hs
        show eraseResult (runWalk cfg₁ fs fuel s1) =
          eraseResult (runWalk cfg₂ fs fuel s2)
        exact ih s1 s2 hs
      | done s2 =>
        rw [h2] at hs
        simp [eraseStep] at hs
      | err e2 =>
        rw [h2] at hs
        simp [eraseStep] at hs

/-- A tree whose structural behaviour (context push, file descent) is
exercised while the user reports nothing. -/
def fsStructDemo : SvxFS :=
  [(["A.svx"], ⟨["*begin s1", "*include B"], true, true⟩),
   (["B.svx"], ⟨["*fix Q"], true, true⟩)]

/-- The empty reporting configuration. -/
def cfgNoReport : Cfg :=
  { keywords := [], pattern := none, warn := false, preserveCase := false }

/-- C1: the recognition set used for classification is the user set
unioned with {INCLUDE, BEGIN, END}, so the structural directives always
drive the traversal state: up to the accumulated records, the whole run
(visited files, context stack, frames, line counters, errors) is
independent of the user reporting keyword set (and of the
case-preservation flag and grep pattern); inclusion in the output table
is tested against the user set alone (a recognized directive outside it
emits no record); concretely, with an empty reporting set the walker
still descends into the include and pushes the BEGIN context while
emitting no record at all. -/
theorem C1_structural_independent :
    (∀ (K₁ K₂ : List String) (pc₁ pc₂ : Bool)
        (pat₁ pat₂ : Option (String → Option String)) (w : Bool) (kc cc : Char)
        (fs : SvxFS) (top : SvxPath) (fuel : Nat),
      eraseResult (keyword_table ⟨K₁, pat₁, w, pc₁, kc, cc⟩ fs top fuel) =
        eraseResult (keyword_table ⟨K₂, pat₂, w, pc₂, kc, cc⟩ fs top fuel)) ∧
    (∀ (cfg : Cfg) (st : WalkState) (l k uc : String) (a : List String),
      uc ∉ cfg.keywords → reportStep cfg st l k uc a = st) ∧
    (finalState (keyword_table cfgNoReport fsStructDemo ["A.svx"] 20)).visited =
      [["A.svx"], ["B.svx"]] ∧
    (finalState (keyword_table cfgNoReport fsStructDemo ["A.svx"] 20)).svxPath =
      ["s1"] ∧
    resultRecords (keyword_table cfgNoReport fsStructDemo ["A.svx"] 20) = [] := by
  refine ⟨?_, ?_, rfl, rfl, rfl⟩
  · intro K₁ K₂ pc₁ pc₂ pat₁ pat₂ w kc cc fs top fuel
    unfold keyword_table
    cases hi : initState fs top with
    | error e => rfl
    | ok st0 =>
      exact runWalk_erase ⟨K₁, pat₁, w, pc₁, kc, cc⟩ ⟨K₂, pat₂, w, pc₂, kc, cc⟩
        fs rfl rfl rfl fuel st0 st0 rfl
  · intro cfg st l k uc a h
    exact reportStep_not_mem cfg st l k uc a h

/-! ## The position invariant (C5, C8) -/

/-- The open cursor `curLines` is the suffix of the file at `p` after
`k` lines were read. -/
def AtPos (fs : SvxFS) (p : SvxPath) (curLines : List String) (k : Nat) : Prop :=
  ∃ c, lookupFs fs p = some c ∧ curLines = c.lines.drop k

/-- A record's line number is the 1-based position of its line within
its own source file, whose stripped, tab-expanded text it carries. -/
def RecOk (fs : SvxFS) (r : Record) : Prop :=
  ∃ c raw, lookupFs fs r.file = some c ∧ c.lines[r.line - 1]? = some raw ∧
    1 ≤ r.line ∧ r.full = expandtabs (pyStrip raw)

/-- The first `k` lines of the file at `p` have all been processed. -/
def CovUpTo (fs : SvxFS) (p : SvxPath) (k : Nat) (processed : List String) : Prop :=
  ∀ c, lookupFs fs p = some c → ∀ raw ∈ c.lines.take k, pyStrip raw ∈ processed

/-- The walker's global position/coverage invariant. -/
structure WalkInv (fs : SvxFS) (st : WalkState) : Prop where
  cur : AtPos fs st.p st.curLines st.lineNumber
  frames : ∀ f ∈ st.stack, AtPos fs f.p f.curLines f.lineNumber
  recs : ∀ r ∈ st.records, RecOk fs r
  curCov : CovUpTo fs st.p st.lineNumber st.processed
  frameCov : ∀ f ∈ st.stack, CovUpTo fs f.p f.lineNumber st.processed
  finCov : ∀ p ∈ st.finished, ∀ c, lookupFs fs p = some c →
    ∀ raw ∈ c.lines, pyStrip raw ∈ st.processed
  visSplit : ∀ p ∈ st.visited, p ∈ st.finished ∨ p = st.p ∨ ∃ f ∈ st.stack, f.p = p
  procSrc : ∀ l ∈ st.processed, ∃ p ∈ st.visited, ∃ c raw,
    lookupFs fs p = some c ∧ raw ∈ c.lines ∧ l = pyStrip raw
  pVis : st.p ∈ st.visited
  stackVis : ∀ f ∈ st.stack, f.p ∈ st.visited

/-- Transfer of the invariant along equalities of all the fields it
mentions (survey path, begin line and encoding are free to change). -/
theorem walkInv_transfer {fs : SvxFS} {s t : WalkState}
    (hp : s.p = t.p) (hcl : s.curLines = t.curLines)
    (hln : s.lineNumber = t.lineNumber) (hstk : s.stack = t.stack)
    (hrec : s.records = t.records) (hvis : s.visited = t.visited)
    (hproc : s.processed = t.processed) (hfin : s.finished = t.finished)
    (ht : WalkInv fs t) : WalkInv fs s := by
  refine ⟨?_, ?_, ?_, ?_, ?_, ?_, ?_, ?_, ?_, ?_⟩
  · rw [hp, hcl, hln]
    exact ht.cur
  · rw [hstk]
    exact ht.frames
  · rw [hrec]
    exact ht.recs
  · rw [hp, hln, hproc]
    exact ht.curCov
  · rw [hstk, hproc]
    exact ht.frameCov
  · rw [hfin, hproc]
    exact ht.finCov
  · rw [hvis, hfin, hp, hstk]
    exact ht.visSplit
  · rw [hproc, hvis]
    exact ht.procSrc
  · rw [hp, hvis]
    exact ht.pVis
  · rw [hstk, hvis]
    exact ht.stackVis

/-- Appending records that satisfy `RecOk` preserves the invariant. -/
theorem walkInv_append_records {fs : SvxFS} {s t : WalkState}
    (hx : SameX s t) (rs : List Record) (hsr : s.records = t.records ++ rs)
    (hrs : ∀ r ∈ rs, RecOk fs r) (ht : WalkInv fs t) : WalkInv fs s := by
  have hrec : ∀ r ∈ s.records, RecOk fs r := by
    rw [hsr]
    intro r hr
    rcases List.mem_append.mp hr with h | h
    · exact ht.recs r h
    · exact hrs r h
  refine ⟨?_, ?_, hrec, ?_, ?_, ?_, ?_, ?_, ?_, ?_⟩
  · rw [hx.p, hx.curLines, hx.lineNumber]
    exact ht.cur
  · rw [hx.stack]
    exact ht.frames
  · rw [hx.p, hx.lineNumber, hx.processed]
    exact ht.curCov
  · rw [hx.stack, hx.processed]
    exact ht.frameCov
  · rw [hx.finished, hx.processed]
    exact ht.finCov
  · rw [hx.visited, hx.finished, hx.p, hx.stack]
    exact ht.visSplit
  · rw [hx.processed, hx.visited]
    exact ht.procSrc
  · rw [hx.p, hx.visited]
    exact ht.pVis
  · rw [hx.stack, hx.visited]
    exact ht.stackVis

/-- A successful `svx_open` means the path resolves in the file system
and the returned cursor is the whole file. -/
theorem svx_open_ok (fs : SvxFS) (p : SvxPath) (lines : List String)
    (enc : String) (h : svx_open fs p = .ok (lines, enc)) :
    ∃ c, lookupFs fs p = some c ∧ lines = c.lines := by
  unfold svx_open at h
  split at h
  · simp at h
  · rename_i c hc
    split at h
    · simp at h
    · injection h with h
      injection h with h1 h2
      exact ⟨c, hc, h1.symm⟩

/-- A successful END step either leaves the state unchanged or only
pops the survey path. -/
theorem endStep_ok_shape (cfg : Cfg) (st : WalkState) (uc : String)
    (a : List String) (st5 : WalkState) (h : endStep cfg st uc a = .ok st5) :
    st5 = st ∨ st5 = { st with svxPath := st.svxPath.dropLast } := by
  unfold endStep at h
  split at h
  · split at h
    · injection h with h
      exact Or.inl h.symm
    · split at h
      · simp at h
      · split at h
        · split at h
          · simp at h
          · injection h with h
            exact Or.inr h.symm
        · injection h with h
          exact Or.inr h.symm
  · injection h with h
    exact Or.inl h.symm

/-- Processing one line from the current position preserves the
position/coverage invariant. -/
theorem read_walkInv (cfg : Cfg) (fs : SvxFS) (st : WalkState) (raw : String)
    (rest : List String) (st' : WalkState) (hinv : WalkInv fs st)
    (hcl : st.curLines = raw :: rest)
    (hok : processLine cfg fs
      { st with curLines := rest, lineNumber := st.lineNumber + 1 } raw = .ok st') :
    WalkInv fs st' := by
  obtain ⟨c, hcp, hdrop⟩ := hinv.cur
  rw [hcl] at hdrop
  have hget : c.lines[st.lineNumber]? = some raw :=
    getElem?_of_drop_eq_cons hdrop.symm
  have hrest : c.lines.drop (st.lineNumber + 1) = rest :=
    drop_succ_of_drop_eq_cons hdrop.symm
  have hrawmem : raw ∈ c.lines := List.getElem?_mem hget
  have hinv1 : WalkInv fs (addProcessed
      { st with curLines := rest, lineNumber := st.lineNumber + 1 } (pyStrip raw)) := by
    refine ⟨⟨c, hcp, hrest.symm⟩, hinv.frames, hinv.recs, ?_, ?_, ?_,
      hinv.visSplit, ?_, hinv.pVis, hinv.stackVis⟩
    · show CovUpTo fs st.p (st.lineNumber + 1) (st.processed ++ [pyStrip raw])
      intro c2 hc2 raw2 hraw2
      rw [hcp] at hc2
      injection hc2 with hc2
      subst hc2
      rw [List.take_succ, hget] at hraw2
      rcases List.mem_append.mp hraw2 with h | h
      · exact List.mem_append_left _ (hinv.curCov _ hcp raw2 h)
      · simp at h
        subst h
        exact List.mem_append_right _ (by simp)
    · show ∀ f ∈ st.stack, CovUpTo fs f.p f.lineNumber (st.processed ++ [pyStrip raw])
      intro f hf c2 hc2 raw2 hraw2
      exact List.mem_append_left _ (hinv.frameCov f hf c2 hc2 raw2 hraw2)
    · show ∀ p ∈ st.finished, ∀ c2, lookupFs fs p = some c2 →
        ∀ raw2 ∈ c2.lines, pyStrip raw2 ∈ st.processed ++ [pyStrip raw]
      intro p hp c2 hc2 raw2 hraw2
      exact List.mem_append_left _ (hinv.finCov p hp c2 hc2 raw2 hraw2)
    · show ∀ l ∈ st.processed ++ [pyStrip raw], ∃ p ∈ st.visited, ∃ c2 raw2,
        lookupFs fs p = some c2 ∧ raw2 ∈ c2.lines ∧ l = pyStrip raw2
      intro l hl
      rcases List.mem_append.mp hl with h | h
      · exact hinv.procSrc l h
      · simp at h
        subst h
        exact ⟨st.p, hinv.pVis, c, raw, hcp, hrawmem, rfl⟩
  obtain ⟨rsg, hrsg, hrsgprops⟩ := grepStep_records cfg (addProcessed
    { st with curLines := rest, lineNumber := st.lineNumber + 1 } (pyStrip raw))
    (pyStrip raw)
  have hinv2 : WalkInv fs (grepStep cfg (addProcessed
      { st with curLines := rest, lineNumber := st.lineNumber + 1 } (pyStrip raw))
      (pyStrip raw)) := by
    refine walkInv_append_records (grepStep_sameX _ _ _) rsg hrsg ?_ hinv1
    intro r hr
    obtain ⟨hf, hl, hful⟩ := hrsgprops r hr
    refine ⟨c, raw, ?_, ?_, ?_, ?_⟩
    · rw [hf]
      exact hcp
    · rw [hl]
      simpa using hget
    · rw [hl]
      exact Nat.le_add_left 1 st.lineNumber
    · exact hful
  cases hex : extract_keyword_arguments (cleanOf cfg (pyStrip raw)) (recognised cfg)
      cfg.keywordChar with
  | error e =>
    rw [processLine_eq_error _ _ _ _ _ hex] at hok
    simp at hok
  | ok pr =>
    obtain ⟨kopt, args⟩ := pr
    cases kopt with
    | none =>
      rw [processLine_eq_none _ _ _ _ _ hex] at hok
      injection hok with hok
      subst hok
      exact hinv2
    | some keyword =>
      rw [processLine_eq_some _ _ _ _ _ _ hex] at hok
      obtain ⟨rsr, hrsr, hrsrprops⟩ := reportStep_records cfg
        (grepStep cfg (addProcessed
          { st with curLines := rest, lineNumber := st.lineNumber + 1 } (pyStrip raw))
          (pyStrip raw)) (pyStrip raw) keyword (pyUpper keyword) args
      have hinv3 : WalkInv fs (reportStep cfg
          (grepStep cfg (addProcessed
            { st with curLines := rest, lineNumber := st.lineNumber + 1 } (pyStrip raw))
            (pyStrip raw)) (pyStrip raw) keyword (pyUpper keyword) args) := by
        refine walkInv_append_records (reportStep_sameX _ _ _ _ _ _) rsr hrsr ?_ hinv2
        intro r hr
        obtain ⟨hf, hl, hful⟩ := hrsrprops r hr
        have hx2 := grepStep_sameX cfg (addProcessed
          { st with curLines := rest, lineNumber := st.lineNumber + 1 } (pyStrip raw))
          (pyStrip raw)
        refine ⟨c, raw, ?_, ?_, ?_, ?_⟩
        · rw [hf, hx2.p]
          exact hcp
        · rw [hl, hx2.lineNumber]
          simpa using hget
        · rw [hl, hx2.lineNumber]
          exact Nat.le_add_left 1 st.lineNumber
        · exact hful
      have hinv4 : WalkInv fs (beginStep
          (reportStep cfg
            (grepStep cfg (addProcessed
              { st with curLines := rest, lineNumber := st.lineNumber + 1 } (pyStrip raw))
              (pyStrip raw)) (pyStrip raw) keyword (pyUpper keyword) args)
          (pyStrip raw) (pyUpper keyword) args) := by
        unfold beginStep
        split
        · split
          · exact hinv3
          · refine walkInv_transfer ?_ ?_ ?_ ?_ ?_ ?_ ?_ ?_ hinv3 <;> rfl
        · exact hinv3
      cases hend : endStep cfg (beginStep
          (reportStep cfg
            (grepStep cfg (addProcessed
              { st with curLines := rest, lineNumber := st.lineNumber + 1 } (pyStrip raw))
              (pyStrip raw)) (pyStrip raw) keyword (pyUpper keyword) args)
          (pyStrip raw) (pyUpper keyword) args) (pyUpper keyword) args with
      | error e =>
        rw [hend, afterEnd_error] at hok
        simp at hok
      | ok st5 =>
        rw [hend, afterEnd_ok] at hok
        have hinv5 : WalkInv fs st5 := by
          rcases endStep_ok_shape _ _ _ _ _ hend with h5 | h5
          · rw [h5]
            exact hinv4
          · rw [h5]
            refine walkInv_transfer ?_ ?_ ?_ ?_ ?_ ?_ ?_ ?_ hinv4 <;> rfl
        rcases eq_or_ne (pyUpper keyword) "INCLUDE" with hINC | hNINC
        · rw [hINC] at hok
          rcases includeStep_inc fs st5 args with ⟨e, ho, hi⟩ | ⟨lines, enc, ho, hi⟩
          · rw [hi] at hok
            simp at hok
          · rw [hi] at hok
            injection hok with hok
            subst hok
            obtain ⟨c', hc', hlines⟩ := svx_open_ok fs _ lines enc ho
            refine ⟨⟨c', hc', by rw [List.drop_zero]; exact hlines⟩, ?_, hinv5.recs,
              ?_, ?_, hinv5.finCov, ?_, ?_, ?_, ?_⟩
            · intro f hf
              rcases List.mem_cons.mp hf with h3 | h3
              · rw [h3]
                exact hinv5.cur
              · exact hinv5.frames f h3
            · intro c2 hc2 raw2 hraw2
              simp at hraw2
            · intro f hf
              rcases List.mem_cons.mp hf with h3 | h3
              · rw [h3]
                exact hinv5.curCov
              · exact hinv5.frameCov f h3
            · intro p hp
              rcases List.mem_append.mp hp with h3 | h3
              · rcases hinv5.visSplit p h3 with h4 | h4 | ⟨f, hf, hfp⟩
                · exact Or.inl h4
                · exact Or.inr (Or.inr ⟨⟨st5.p, st5.curLines, st5.lineNumber,
                    st5.encoding⟩, by simp, h4.symm⟩)
                · exact Or.inr (Or.inr ⟨f, List.mem_cons_of_mem _ hf, hfp⟩)
              · simp at h3
                subst h3
                exact Or.inr (Or.inl rfl)
            · intro l hl
              obtain ⟨p, hp, c2, raw2, hc2, hraw2, hstrip⟩ := hinv5.procSrc l hl
              exact ⟨p, List.mem_append_left _ hp, c2, raw2, hc2, hraw2, hstrip⟩
            · exact List.mem_append_right _ (by simp)
            · intro f hf
              rcases List.mem_cons.mp hf with h3 | h3
              · rw [h3]
                exact List.mem_append_left _ hinv5.pVis
              · exact List.mem_append_left _ (hinv5.stackVis f h3)
        · rw [includeStep_not _ _ _ _ hNINC] at hok
          injection hok with hok
          subst hok
          exact hinv5

/-- Closing an exhausted file: everything in it has been processed, so
it can move to the finished set. -/
theorem close_walkInv (fs : SvxFS) (st : WalkState) (h : WalkInv fs st)
    (hcl : st.curLines = []) :
    WalkInv fs { st with finished := st.finished ++ [st.p] } := by
  obtain ⟨c, hcp, hdrop⟩ := h.cur
  rw [hcl] at hdrop
  have hlen : c.lines.length ≤ st.lineNumber := List.drop_eq_nil_iff.mp hdrop.symm
  have hall : ∀ raw ∈ c.lines, pyStrip raw ∈ st.processed := by
    intro raw hraw
    exact h.curCov c hcp raw (by rw [List.take_of_length_le hlen]; exact hraw)
  refine ⟨h.cur, h.frames, h.recs, h.curCov, h.frameCov, ?_, ?_, h.procSrc,
    h.pVis, h.stackVis⟩
  · show ∀ p ∈ st.finished ++ [st.p], ∀ c2, lookupFs fs p = some c2 →
      ∀ raw2 ∈ c2.lines, pyStrip raw2 ∈ st.processed
    intro p hp c2 hc2 raw2 hraw2
    rcases List.mem_append.mp hp with h2 | h2
    · exact h.finCov p h2 c2 hc2 raw2 hraw2
    · simp at h2
      subst h2
      rw [hcp] at hc2
      injection hc2 with hc2
      subst hc2
      exact hall raw2 hraw2
  · show ∀ p ∈ st.visited, p ∈ st.finished ++ [st.p] ∨ p = st.p ∨
      ∃ f ∈ st.stack, f.p = p
    intro p hp
    rcases h.visSplit p hp with h2 | h2 | h2
    · exact Or.inl (List.mem_append_left _ h2)
    · exact Or.inr (Or.inl h2)
    · exact Or.inr (Or.inr h2)

/-- Popping a frame after closing the exhausted file. -/
theorem pop_walkInv (fs : SvxFS) (st : WalkState) (fr : Frame) (rest : List Frame)
    (h : WalkInv fs st) (hcl : st.curLines = []) (hstk : st.stack = fr :: rest) :
    WalkInv fs
      { st with finished := st.finished ++ [st.p],
                p := fr.p, curLines := fr.curLines,
                lineNumber := fr.lineNumber, encoding := fr.encoding,
                stack := rest } := by
  have hclose := close_walkInv fs st h hcl
  have hfr : fr ∈ st.stack := by
    rw [hstk]
    simp
  refine ⟨h.frames fr hfr, ?_, h.recs, h.frameCov fr hfr, ?_, hclose.finCov,
    ?_, h.procSrc, h.stackVis fr hfr, ?_⟩
  · show ∀ f ∈ rest, AtPos fs f.p f.curLines f.lineNumber
    intro f hf
    exact h.frames f (by rw [hstk]; exact List.mem_cons_of_mem _ hf)
  · show ∀ f ∈ rest, CovUpTo fs f.p f.lineNumber st.processed
    intro f hf
    exact h.frameCov f (by rw [hstk]; exact List.mem_cons_of_mem _ hf)
  · show ∀ p ∈ st.visited, p ∈ st.finished ++ [st.p] ∨ p = fr.p ∨
      ∃ f ∈ rest, f.p = p
    intro p hp
    rcases h.visSplit p hp with h2 | h2 | ⟨f, hf, hfp⟩
    · exact Or.inl (List.mem_append_left _ h2)
    · exact Or.inl (by rw [h2]; exact List.mem_append_right _ (by simp))
    · rw [hstk] at hf
      rcases List.mem_cons.mp hf with h3 | h3
      · rw [h3] at hfp
        exact Or.inr (Or.inl hfp.symm)
      · exact Or.inr (Or.inr ⟨f, h3, hfp⟩)
  · show ∀ f ∈ rest, f.p ∈ st.visited
    intro f hf
    exact h.stackVis f (by rw [hstk]; exact List.mem_cons_of_mem _ hf)

/-- One walker step preserves the position/coverage invariant. -/
theorem step_walkInv (cfg : Cfg) (fs : SvxFS) (st : WalkState)
    (h : WalkInv fs st) :
    (∀ s, step cfg fs st = .next s → WalkInv fs s) ∧
    (∀ s, step cfg fs st = .done s → WalkInv fs s) := by
  rcases step_cases cfg fs st with ⟨hcl, hstk, hs⟩ | ⟨fr, rest, hcl, hstk, hs⟩ |
    ⟨raw, rest, hcl, hs⟩
  · rw [hs]
    constructor
    · intro s hc
      simp at hc
    · intro s hc
      injection hc with hc
      subst hc
      exact close_walkInv fs st h hcl
  · rw [hs]
    constructor
    · intro s hc
      injection hc with hc
      subst hc
      exact pop_walkInv fs st fr rest h hcl hstk
    · intro s hc
      simp at hc
  · rw [hs]
    cases hp : processLine cfg fs
        { st with curLines := rest, lineNumber := st.lineNumber + 1 } raw with
    | ok st2 =>
      rw [readStep_eq_ok _ _ _ _ _ hp]
      constructor
      · intro s hc
        injection hc with hc
        subst hc
        exact read_walkInv cfg fs st raw rest st2 h hcl hp
      · intro s hc
        simp at hc
    | error e =>
      rw [readStep_eq_error _ _ _ _ _ hp]
      exact ⟨fun s hc => by simp at hc, fun s hc => by simp at hc⟩

/-- The initial state satisfies the invariant. -/
theorem initState_walkInv (fs : SvxFS) (top : SvxPath) (st0 : WalkState)
    (h : initState fs top = .ok st0) : WalkInv fs st0 := by
  obtain ⟨lines, enc, ho, hst0⟩ := initState_ok fs top st0 h
  obtain ⟨c, hc, hlines⟩ := svx_open_ok fs top lines enc ho
  subst hst0
  refine ⟨⟨c, hc, by rw [List.drop_zero]; exact hlines⟩, ?_, ?_, ?_, ?_, ?_,
    ?_, ?_, ?_, ?_⟩
  · intro f hf
    simp at hf
  · intro r hr
    simp at hr
  · intro c2 hc2 raw2 hraw2
    simp at hraw2
  · intro f hf
    simp at hf
  · intro p hp
    simp at hp
  · intro p hp
    simp at hp
    subst hp
    exact Or.inr (Or.inl rfl)
  · intro l hl
    simp at hl
  · simp
  · intro f hf
    simp at hf

/-- The final state of any finished run satisfies the invariant. -/
theorem keyword_table_walkInv (cfg : Cfg) (fs : SvxFS) (top : SvxPath)
    (fuel : Nat) (st' : WalkState)
    (h : keyword_table cfg fs top fuel = some (.ok st')) : WalkInv fs st' := by
  unfold keyword_table at h
  cases hi : initState fs top with
  | error e =>
    rw [hi] at h
    simp at h
  | ok st0 =>
    rw [hi] at h
    exact runWalk_preserve cfg fs (WalkInv fs)
      (fun st hs => step_walkInv cfg fs st hs) fuel st0 st'
      (initState_walkInv fs top st0 hi) h

/-! ## C5: line numbers -/

/-- A tree whose include sits between recorded lines, so the parent's
counter must resume after the descent. -/
def fsMidInclude : SvxFS :=
  [(["A.svx"], ⟨["*begin s1", "*include B", "*fix P2", "*end s1"], true, true⟩),
   (["B.svx"], ⟨["*fix Q"], false, true⟩)]

/-- C5: every record's line number is the 1-based position of its line
within its own source file — the record's full text is the stripped,
tab-expanded text of exactly that line of that file.  Concretely, on a
tree whose include interrupts the top file, the included file's record
is at line 1 (fresh counter) and the parent's next record resumes at
line 3 (saved counter). -/
theorem C5_line_numbers :
    (∀ (cfg : Cfg) (fs : SvxFS) (top : SvxPath) (fuel : Nat) (r : Record),
      r ∈ resultRecords (keyword_table cfg fs top fuel) →
      1 ≤ r.line ∧ ∃ c raw, lookupFs fs r.file = some c ∧
        c.lines[r.line - 1]? = some raw ∧ r.full = expandtabs (pyStrip raw)) ∧
    resultRecords (keyword_table cfgFixOnly fsMidInclude ["A.svx"] 30) =
      [⟨["B.svx"], "ISO-8859-1", 1, "FIX", "Q", "s1", "*fix Q"⟩,
       ⟨["A.svx"], "UTF-8", 3, "FIX", "P2", "s1", "*fix P2"⟩] := by
  refine ⟨?_, rfl⟩
  intro cfg fs top fuel r hr
  cases hres : keyword_table cfg fs top fuel with
  | none =>
    rw [hres] at hr
    simp [resultRecords] at hr
  | some res =>
    cases res with
    | error e =>
      rw [hres] at hr
      simp [resultRecords] at hr
    | ok st =>
      rw [hres] at hr
      have hrr : r ∈ st.records := hr
      obtain ⟨c, raw, h1, h2, h3, h4⟩ :=
        (keyword_table_walkInv cfg fs top fuel st hres).recs r hrr
      exact ⟨h3, c, raw, h1, h2, h4⟩

/-- C5 witness: the parent-file record of the concrete tree, at its
resumed line number 3. -/
theorem C5_witness :
    1 ≤ (Record.mk ["A.svx"] "UTF-8" 3 "FIX" "P2" "s1" "*fix P2").line ∧
    ∃ c raw,
      lookupFs fsMidInclude
        (Record.mk ["A.svx"] "UTF-8" 3 "FIX" "P2" "s1" "*fix P2").file = some c ∧
      c.lines[(Record.mk ["A.svx"] "UTF-8" 3 "FIX" "P2" "s1" "*fix P2").line - 1]? =
        some raw ∧
      (Record.mk ["A.svx"] "UTF-8" 3 "FIX" "P2" "s1" "*fix P2").full =
        expandtabs (pyStrip raw) :=
  C5_line_numbers.1 cfgFixOnly fsMidInclude ["A.svx"] 30
    (Record.mk ["A.svx"] "UTF-8" 3 "FIX" "P2" "s1" "*fix P2") (by decide)

/-! ## C8: grep-mode exit status -/

theorem grepStep_pat_none (cfg : Cfg) (st : WalkState) (l : String)
    (pat : String → Option String) (hpat : cfg.pattern = some pat)
    (hm : pat l = none) : grepStep cfg st l = st := by
  unfold grepStep
  rw [hpat]
  simp [hm]

theorem grepStep_pat_some (cfg : Cfg) (st : WalkState) (l : String)
    (pat : String → Option String) (grp : String) (hpat : cfg.pattern = some pat)
    (hm : pat l = some grp) :
    grepStep cfg st l =
      { st with records := st.records ++
          [⟨st.p, pyUpper st.encoding, st.lineNumber, grp, "",
            dotJoin st.svxPath, expandtabs l⟩] } := by
  unfold grepStep
  rw [hpat]
  simp [hm]

theorem beginStep_fields (st : WalkState) (l uc : String) (a : List String) :
    (beginStep st l uc a).records = st.records ∧
    (beginStep st l uc a).processed = st.processed := by
  unfold beginStep
  split
  · split
    · exact ⟨rfl, rfl⟩
    · exact ⟨rfl, rfl⟩
  · exact ⟨rfl, rfl⟩

theorem includeStep_fields (fs : SvxFS) (st : WalkState) (uc : String)
    (a : List String) (st' : WalkState) (h : includeStep fs st uc a = .ok st') :
    st'.records = st.records ∧ st'.processed = st.processed := by
  rcases eq_or_ne uc "INCLUDE" with rfl | hne
  · rcases includeStep_inc fs st a with ⟨e, _, hi⟩ | ⟨lines, enc, _, hi⟩
    · rw [hi] at h
      simp at h
    · rw [hi] at h
      injection h with h
      subst h
      exact ⟨rfl, rfl⟩
  · rw [includeStep_not _ _ _ _ hne] at h
    injection h with h
    subst h
    exact ⟨rfl, rfl⟩

/-- In grep mode (empty user keyword set, a pattern installed), one
line step appends the stripped line to the processed log and appends a
record exactly when the pattern matches. -/
theorem processLine_grep_shape (cfg : Cfg) (fs : SvxFS) (st : WalkState)
    (raw : String) (st' : WalkState) (pat : String → Option String)
    (hk : cfg.keywords = []) (hpat : cfg.pattern = some pat)
    (hok : processLine cfg fs st raw = .ok st') :
    st'.processed = st.processed ++ [pyStrip raw] ∧
    ((pat (pyStrip raw) = none ∧ st'.records = st.records) ∨
     (∃ grp, pat (pyStrip raw) = some grp ∧ st'.records = st.records ++
        [Record.mk st.p (pyUpper st.encoding) st.lineNumber grp ""
          (dotJoin st.svxPath) (expandtabs (pyStrip raw))])) := by
  have hgrep : ∀ s : WalkState,
      s = grepStep cfg (addProcessed st (pyStrip raw)) (pyStrip raw) →
      s.processed = st.processed ++ [pyStrip raw] ∧
      ((pat (pyStrip raw) = none ∧ s.records = st.records) ∨
       (∃ grp, pat (pyStrip raw) = some grp ∧ s.records = st.records ++
          [Record.mk st.p (pyUpper st.encoding) st.lineNumber grp ""
            (dotJoin st.svxPath) (expandtabs (pyStrip raw))])) := by
    intro s hs
    cases hm : pat (pyStrip raw) with
    | none =>
      rw [grepStep_pat_none cfg _ _ pat hpat hm] at hs
      subst hs
      exact ⟨rfl, Or.inl ⟨rfl, rfl⟩⟩
    | some grp =>
      rw [grepStep_pat_some cfg _ _ pat grp hpat hm] at hs
      subst hs
      exact ⟨rfl, Or.inr ⟨grp, rfl, rfl⟩⟩
  cases hex : extract_keyword_arguments (cleanOf cfg (pyStrip raw)) (recognised cfg)
      cfg.keywordChar with
  | error e =>
    rw [processLine_eq_error _ _ _ _ _ hex] at hok
    simp at hok
  | ok pr =>
    obtain ⟨kopt, args⟩ := pr
    cases kopt with
    | none =>
      rw [processLine_eq_none _ _ _ _ _ hex] at hok
      injection hok with hok
      exact hgrep st' hok.symm
    | some keyword =>
      rw [processLine_eq_some _ _ _ _ _ _ hex,
        reportStep_not_mem _ _ _ _ _ _ (by rw [hk]; simp)] at hok
      cases hend : endStep cfg
          (beginStep (grepStep cfg (addProcessed st (pyStrip raw)) (pyStrip raw))
            (pyStrip raw) (pyUpper keyword) args) (pyUpper keyword) args with
      | error e =>
        rw [hend, afterEnd_error] at hok
        simp at hok
      | ok st5 =>
        rw [hend, afterEnd_ok] at hok
        obtain ⟨hbr, hbp⟩ := beginStep_fields
          (grepStep cfg (addProcessed st (pyStrip raw)) (pyStrip raw))
          (pyStrip raw) (pyUpper keyword) args
        have h5 : st5.records =
            (grepStep cfg (addProcessed st (pyStrip raw)) (pyStrip raw)).records ∧
            st5.processed =
            (grepStep cfg (addProcessed st (pyStrip raw)) (pyStrip raw)).processed := by
          rcases endStep_ok_shape _ _ _ _ _ hend with h5 | h5 <;>
            · rw [h5]
              exact ⟨hbr, hbp⟩
        obtain ⟨hir, hip⟩ := includeStep_fields fs st5 (pyUpper keyword) args st' hok
        obtain ⟨hgp, hgr⟩ := hgrep
          (grepStep cfg (addProcessed st (pyStrip raw)) (pyStrip raw)) rfl
        refine ⟨by rw [hip, h5.2, hgp], ?_⟩
        rcases hgr with ⟨hm, hr⟩ | ⟨grp, hm, hr⟩
        · exact Or.inl ⟨hm, by rw [hir, h5.1, hr]⟩
        · exact Or.inr ⟨grp, hm, by rw [hir, h5.1, hr]⟩

/-- Grep-mode table invariant: the table is non-empty exactly when some
processed line matched the pattern. -/
def InvGrep (pat : String → Option String) (st : WalkState) : Prop :=
  st.records ≠ [] ↔ ∃ l ∈ st.processed, (pat l).isSome = true

theorem step_invGrep (cfg : Cfg) (fs : SvxFS) (st : WalkState)
    (pat : String → Option String) (hk : cfg.keywords = [])
    (hpat : cfg.pattern = some pat) (h : InvGrep pat st) :
    (∀ s, step cfg fs st = .next s → InvGrep pat s) ∧
    (∀ s, step cfg fs st = .done s → InvGrep pat s) := by
  rcases step_cases cfg fs st with ⟨hcl, hstk, hs⟩ | ⟨fr, rest, hcl, hstk, hs⟩ |
    ⟨raw, rest, hcl, hs⟩
  · rw [hs]
    exact ⟨fun s hc => by simp at hc, fun s hc => by
      injection hc with hc
      subst hc
      exact h⟩
  · rw [hs]
    exact ⟨fun s hc => by
      injection hc with hc
      subst hc
      exact h, fun s hc => by simp at hc⟩
  · rw [hs]
    cases hp : processLine cfg fs
        { st with curLines := rest, lineNumber := st.lineNumber + 1 } raw with
    | ok st2 =>
      rw [readStep_eq_ok _ _ _ _ _ hp]
      refine ⟨fun s hc => ?_, fun s hc => by simp at hc⟩
      injection hc with hc
      subst hc
      obtain ⟨hproc, hrec⟩ := processLine_grep_shape cfg fs _ raw st2 pat hk hpat hp
      unfold InvGrep
      rw [hproc]
      rcases hrec with ⟨hm, hr⟩ | ⟨grp, hm, hr⟩
      · rw [hr]
        constructor
        · intro hne
          obtain ⟨l, hl, hmat⟩ := h.mp hne
          exact ⟨l, List.mem_append_left _ hl, hmat⟩
        · intro hex
          obtain ⟨l, hl, hmat⟩ := hex
          rcases List.mem_append.mp hl with h2 | h2
          · exact h.mpr ⟨l, h2, hmat⟩
          · simp at h2
            subst h2
            rw [hm] at hmat
            simp at hmat
      · rw [hr]
        constructor
        · intro _
          exact ⟨pyStrip raw, List.mem_append_right _ (by simp),
            by rw [hm]; rfl⟩
        · intro _
          simp
    | error e =>
      rw [readStep_eq_error _ _ _ _ _ hp]
      exact ⟨fun s hc => by simp at hc, fun s hc => by simp at hc⟩

/-- A finished run ends with an empty frame stack, an exhausted cursor,
and the final file among the closed files. -/
theorem runWalk_done_shape (cfg : Cfg) (fs : SvxFS) :
    ∀ (fuel : Nat) (st st' : WalkState),
      runWalk cfg fs fuel st = some (.ok st') →
      st'.stack = [] ∧ st'.curLines = [] ∧ st'.p ∈ st'.finished := by
  intro fuel
  induction fuel with
  | zero =>
    intro st st' h
    simp [runWalk] at h
  | succ fuel ih =>
    intro st st' hrun
    unfold runWalk at hrun
    cases hs : step cfg fs st with
    | done s =>
      rw [hs] at hrun
      simp only [Option.some.injEq, Except.ok.injEq] at hrun
      subst hrun
      rcases step_cases cfg fs st with ⟨hcl, hstk, h1⟩ | ⟨fr, rest, hcl, hstk, h1⟩ |
        ⟨raw, rest, hcl, h1⟩
      · rw [h1] at hs
        injection hs with hs
        rw [← hs]
        refine ⟨hstk, hcl, List.mem_append_right _ (by simp)⟩
      · rw [h1] at hs
        simp at hs
      · rw [h1] at hs
        cases hp : processLine cfg fs
            { st with curLines := rest, lineNumber := st.lineNumber + 1 } raw with
        | ok st2 =>
          rw [readStep_eq_ok _ _ _ _ _ hp] at hs
          simp at hs
        | error e =>
          rw [readStep_eq_error _ _ _ _ _ hp] at hs
          simp at hs
    | err e =>
      rw [hs] at hrun
      simp at hrun
    | next s =>
      rw [hs] at hrun
      simp only at hrun
      exact ih s st' hrun

/-- C8: in grep mode (pattern installed, user keyword set emptied by
the wrapper) the process exit status is nonzero exactly when no line of
any visited file matches the pattern; in every other situation — grep
mode with a match, or keyword mode — the exit status is zero. -/
theorem C8_grep_exit_status :
    (∀ (pat : String → Option String) (w pc : Bool) (fs : SvxFS) (top : SvxPath)
        (fuel : Nat) (st' : WalkState),
      keyword_table ⟨[], some pat, w, pc, '*', ';'⟩ fs top fuel = some (.ok st') →
      (exitStatus true st'.records ≠ 0 ↔
        ¬ ∃ p ∈ st'.visited, ∃ c, lookupFs fs p = some c ∧
          ∃ raw ∈ c.lines, (pat (pyStrip raw)).isSome = true)) ∧
    (∀ tbl : List Record, exitStatus false tbl = 0) := by
  constructor
  · intro pat w pc fs top fuel st' h
    have hwin := keyword_table_walkInv _ fs top fuel st' h
    have hshape : st'.stack = [] ∧ st'.curLines = [] ∧ st'.p ∈ st'.finished := by
      unfold keyword_table at h
      cases hi : initState fs top with
      | error e =>
        rw [hi] at h
        simp at h
      | ok st0 =>
        rw [hi] at h
        exact runWalk_done_shape _ fs fuel st0 st' h
    have hgrep : InvGrep pat st' := by
      unfold keyword_table at h
      cases hi : initState fs top with
      | error e =>
        rw [hi] at h
        simp at h
      | ok st0 =>
        rw [hi] at h
        have h0 : InvGrep pat st0 := by
          obtain ⟨lines, enc, ho, hst0⟩ := initState_ok fs top st0 hi
          subst hst0
          unfold InvGrep
          simp
        exact runWalk_preserve _ fs (InvGrep pat)
          (fun st hs => step_invGrep _ fs st pat rfl rfl hs) fuel st0 st' h0 h
    have hvisfin : ∀ p ∈ st'.visited, p ∈ st'.finished := by
      intro p hp
      rcases hwin.visSplit p hp with h2 | h2 | ⟨f, hf, _⟩
      · exact h2
      · rw [h2]
        exact hshape.2.2
      · rw [hshape.1] at hf
        simp at hf
    have hiff : (∃ p ∈ st'.visited, ∃ c, lookupFs fs p = some c ∧
        ∃ raw ∈ c.lines, (pat (pyStrip raw)).isSome = true) ↔
        (∃ l ∈ st'.processed, (pat l).isSome = true) := by
      constructor
      · rintro ⟨p, hp, c, hc, raw, hraw, hmat⟩
        exact ⟨pyStrip raw, hwin.finCov p (hvisfin p hp) c hc raw hraw, hmat⟩
      · rintro ⟨l, hl, hmat⟩
        obtain ⟨p, hp, c, raw, hc, hraw, hstrip⟩ := hwin.procSrc l hl
        refine ⟨p, hp, c, hc, raw, hraw, ?_⟩
        rw [← hstrip]
        exact hmat
    have hmain : st'.records = [] ↔ ¬ (∃ p ∈ st'.visited, ∃ c,
        lookupFs fs p = some c ∧
        ∃ raw ∈ c.lines, (pat (pyStrip raw)).isSome = true) := by
      rw [hiff]
      constructor
      · intro hemp hex
        exact (hgrep.mpr hex) hemp
      · intro hnomat
        by_contra hne
        exact hnomat (hgrep.mp hne)
    have hexit : (exitStatus true st'.records ≠ 0) ↔ st'.records = [] := by
      unfold exitStatus
      by_cases hrec : st'.records = []
      · rw [hrec]
        simp
      · have hlen : st'.records.length ≠ 0 := by simpa using hrec
        rw [if_pos hlen]
        simp [hrec]
    rw [hexit, hmain]
  · intro tbl
    unfold exitStatus
    by_cases h : tbl.length ≠ 0
    · rw [if_pos h]
    · rw [if_neg h]
      rfl

/-- A concrete matchless grep search: no line of the tree contains `z`. -/
def demoPattern : String → Option String :=
  fun s => if 'z' ∈ s.toList then some "z" else none

/-- Grep fixture with an include and no `z` anywhere. -/
def fsGrepDemo : SvxFS :=
  [(["A.svx"], ⟨["*include B"], true, true⟩),
   (["B.svx"], ⟨["no match here"], true, true⟩)]

/-- C8 witness: the matchless grep run applied to the theorem. -/
theorem C8_witness :
    exitStatus true (finalState (keyword_table ⟨[], some demoPattern, false, true,
        '*', ';'⟩ fsGrepDemo ["A.svx"] 20)).records ≠ 0 ↔
      ¬ ∃ p ∈ (finalState (keyword_table ⟨[], some demoPattern, false, true,
        '*', ';'⟩ fsGrepDemo ["A.svx"] 20)).visited, ∃ c,
          lookupFs fsGrepDemo p = some c ∧
          ∃ raw ∈ c.lines, (demoPattern (pyStrip raw)).isSome = true :=
  C8_grep_exit_status.1 demoPattern false true fsGrepDemo ["A.svx"] 20
    (finalState (keyword_table ⟨[], some demoPattern, false, true, '*', ';'⟩
      fsGrepDemo ["A.svx"] 20)) rfl

/-! ## C4: INCLUDE records versus visited files -/

theorem countInclude_append (rs : List Record) (r : Record) :
    countInclude (rs ++ [r]) = countInclude rs +
      (if pyUpper r.keyword = "INCLUDE" then 1 else 0) := by
  by_cases h : pyUpper r.keyword = "INCLUDE" <;>
    simp [countInclude, List.filter_append, List.filter, h]

theorem beginStep_keep (st : WalkState) (l uc : String) (a : List String) :
    (beginStep st l uc a).records = st.records ∧
    (beginStep st l uc a).visited = st.visited := by
  unfold beginStep
  split
  · split
    · exact ⟨rfl, rfl⟩
    · exact ⟨rfl, rfl⟩
  · exact ⟨rfl, rfl⟩

/-- In keyword mode with INCLUDE reported, a line step grows the
INCLUDE-record count and the visit log in lockstep. -/
theorem processLine_c4 (cfg : Cfg) (fs : SvxFS) (st : WalkState) (raw : String)
    (st' : WalkState) (hpat : cfg.pattern = none)
    (hinc : "INCLUDE" ∈ cfg.keywords)
    (hok : processLine cfg fs st raw = .ok st') :
    countInclude st'.records + st.visited.length =
      countInclude st.records + st'.visited.length := by
  have hg : grepStep cfg (addProcessed st (pyStrip raw)) (pyStrip raw) =
      addProcessed st (pyStrip raw) :=
    grepStep_none cfg _ _ hpat
  cases hex : extract_keyword_arguments (cleanOf cfg (pyStrip raw)) (recognised cfg)
      cfg.keywordChar with
  | error e =>
    rw [processLine_eq_error _ _ _ _ _ hex] at hok
    simp at hok
  | ok pr =>
    obtain ⟨kopt, args⟩ := pr
    cases kopt with
    | none =>
      rw [processLine_eq_none _ _ _ _ _ hex] at hok
      injection hok with hok
      subst hok
      rw [hg]
      rfl
    | some keyword =>
      rw [processLine_eq_some _ _ _ _ _ _ hex, hg] at hok
      cases hend : endStep cfg
          (beginStep (reportStep cfg (addProcessed st (pyStrip raw)) (pyStrip raw)
            keyword (pyUpper keyword) args)
            (pyStrip raw) (pyUpper keyword) args) (pyUpper keyword) args with
      | error e =>
        rw [hend, afterEnd_error] at hok
        simp at hok
      | ok st5 =>
        rw [hend, afterEnd_ok] at hok
        obtain ⟨hbr, hbv⟩ := beginStep_keep
          (reportStep cfg (addProcessed st (pyStrip raw)) (pyStrip raw)
            keyword (pyUpper keyword) args) (pyStrip raw) (pyUpper keyword) args
        have h5r : st5.records = (reportStep cfg (addProcessed st (pyStrip raw))
            (pyStrip raw) keyword (pyUpper keyword) args).records ∧
            st5.visited = (reportStep cfg (addProcessed st (pyStrip raw))
            (pyStrip raw) keyword (pyUpper keyword) args).visited := by
          rcases endStep_ok_shape _ _ _ _ _ hend with h5 | h5 <;>
            · rw [h5]
              exact ⟨hbr, hbv⟩
        have hrv : (reportStep cfg (addProcessed st (pyStrip raw)) (pyStrip raw)
            keyword (pyUpper keyword) args).visited = st.visited :=
          (reportStep_sameX _ _ _ _ _ _).visited
        have hcount : countInclude (reportStep cfg (addProcessed st (pyStrip raw))
            (pyStrip raw) keyword (pyUpper keyword) args).records =
            countInclude st.records +
              (if pyUpper keyword = "INCLUDE" then 1 else 0) := by
          by_cases hmem : pyUpper keyword ∈ cfg.keywords
          · rw [reportStep_mem _ _ _ _ _ _ hmem]
            show countInclude (st.records ++
              [⟨st.p, pyUpper st.encoding, st.lineNumber,
                (if cfg.preserveCase then keyword else pyUpper keyword),
                spaceJoin args, dotJoin st.svxPath, expandtabs (pyStrip raw)⟩]) = _
            rw [countInclude_append]
            congr 1
            by_cases hpc : cfg.preserveCase
            · simp [hpc]
            · simp [hpc, pyUpper_idem]
          · rw [reportStep_not_mem _ _ _ _ _ _ hmem]
            have hNI : pyUpper keyword ≠ "INCLUDE" := by
              intro hc
              rw [hc] at hmem
              exact hmem hinc
            show countInclude st.records = _
            rw [if_neg hNI]
            rfl
        rcases eq_or_ne (pyUpper keyword) "INCLUDE" with hI | hI
        · rw [hI] at hok
          rcases includeStep_inc fs st5 args with ⟨e, _, hi⟩ | ⟨lines, enc, _, hi⟩
          · rw [hi] at hok
            simp at hok
          · rw [hi] at hok
            injection hok with hok
            subst hok
            show countInclude st5.records + st.visited.length =
              countInclude st.records +
                (st5.visited ++ [resolveInclude st5.p args]).length
            rw [h5r.1, hcount, hI, h5r.2, hrv]
            simp
            omega
        · rw [includeStep_not _ _ _ _ hI] at hok
          injection hok with hok
          subst hok
          rw [h5r.1, hcount, if_neg hI, h5r.2, hrv]
          omega

/-- The walker invariant behind the INCLUDE count: when INCLUDE itself
is reported, every visit beyond the first (each caused by an INCLUDE
line) has left exactly one INCLUDE record in the table. -/
def InvC4 (st : WalkState) : Prop :=
  countInclude st.records + 1 = st.visited.length

theorem step_invC4 (cfg : Cfg) (fs : SvxFS) (hpat : cfg.pattern = none)
    (hinc : "INCLUDE" ∈ cfg.keywords) (st : WalkState) (h : InvC4 st) :
    (∀ s, step cfg fs st = .next s → InvC4 s) ∧
    (∀ s, step cfg fs st = .done s → InvC4 s) := by
  rcases step_cases cfg fs st with ⟨hcl, hstk, hs⟩ | ⟨fr, rest, hcl, hstk, hs⟩ |
    ⟨raw, rest, hcl, hs⟩
  · rw [hs]
    constructor
    · intro s hc
      simp at hc
    · intro s hc
      injection hc with hc
      subst hc
      exact h
  · rw [hs]
    constructor
    · intro s hc
      injection hc with hc
      subst hc
      exact h
    · intro s hc
      simp at hc
  · rw [hs]
    constructor
    · intro s hc
      cases hp : processLine cfg fs
          { st with curLines := rest, lineNumber := st.lineNumber + 1 } raw with
      | ok st2 =>
        rw [readStep_eq_ok cfg fs _ raw st2 hp] at hc
        injection hc with hc
        have h4 : countInclude st2.records + st.visited.length =
            countInclude st.records + st2.visited.length :=
          processLine_c4 cfg fs
            { st with curLines := rest, lineNumber := st.lineNumber + 1 } raw st2
            hpat hinc hp
        unfold InvC4 at h ⊢
        rw [← hc]
        omega
      | error e2 =>
        rw [readStep_eq_error cfg fs _ raw e2 hp] at hc
        simp at hc
    · intro s hc
      cases hp : processLine cfg fs
          { st with curLines := rest, lineNumber := st.lineNumber + 1 } raw with
      | ok st2 =>
        rw [readStep_eq_ok cfg fs _ raw st2 hp] at hc
        simp at hc
      | error e2 =>
        rw [readStep_eq_error cfg fs _ raw e2 hp] at hc
        simp at hc

/-- C4 counterexample: the count/visits relation fails as soon as
INCLUDE is left out of the reporting set — on a tree with one include,
reporting {FIX} alone yields a table with no INCLUDE record at all while
two files are visited. -/
theorem C4_counterexample :
    (countInclude (finalState (keyword_table cfgFixOnly fsMidInclude ["A.svx"] 20)).records + 1 =
      (finalState (keyword_table cfgFixOnly fsMidInclude ["A.svx"] 20)).visited.length) = False := by
  simp only [eq_iff_iff, iff_false]
  decide

/-- C4 (amended): in keyword mode, whenever INCLUDE is among the
reporting keywords, any normally finished traversal has exactly one
INCLUDE record in the table per visited file beyond the top-level one:
the INCLUDE count equals the number of visits minus one. -/
theorem C4_amended (cfg : Cfg) (fs : SvxFS) (top : SvxPath) (fuel : Nat)
    (st' : WalkState) (hpat : cfg.pattern = none)
    (hinc : "INCLUDE" ∈ cfg.keywords)
    (hok : keyword_table cfg fs top fuel = some (.ok st')) :
    countInclude st'.records + 1 = st'.visited.length := by
  unfold keyword_table at hok
  cases hi : initState fs top with
  | error e =>
    rw [hi] at hok
    simp at hok
  | ok st0 =>
    rw [hi] at hok
    obtain ⟨lines, enc, ho, hst0⟩ := initState_ok fs top st0 hi
    have h0 : InvC4 st0 := by
      rw [hst0]
      rfl
    exact runWalk_preserve cfg fs InvC4
      (fun s hP => step_invC4 cfg fs hpat hinc s hP) fuel st0 st' h0 hok

theorem C4_witness :
    cfgIncludeOnly.pattern = none ∧ "INCLUDE" ∈ cfgIncludeOnly.keywords ∧
    countInclude (finalState (keyword_table cfgIncludeOnly fsMidInclude ["A.svx"] 20)).records + 1 =
      (finalState (keyword_table cfgIncludeOnly fsMidInclude ["A.svx"] 20)).visited.length :=
  ⟨rfl, by decide,
    C4_amended cfgIncludeOnly fsMidInclude ["A.svx"] 20
      (finalState (keyword_table cfgIncludeOnly fsMidInclude ["A.svx"] 20))
      rfl (by decide) rfl⟩

theorem C1_witness :
    "FIX" ∉ cfgNoReport.keywords ∧
    reportStep cfgNoReport default "l" "fix" "FIX" [] = default :=
  ⟨by decide,
    C1_structural_independent.2.1 cfgNoReport default "l" "fix" "FIX" [] (by decide)⟩
